import Mathlib

/-!
Verification development for the workbench terminal kanban controller.

The Rust sources (src/main.rs, src/app.rs, src/db.rs, src/tmux.rs, src/ai.rs)
are shallowly embedded below: the SQLite record store becomes a pure `Db`
state, the external tmux processes become a `World` state, and the
controller is a structure `App`, with every key handler translated to a pure
state transformer.  External effects (process spawning, the blocking parts
of channel communication) are modelled as explicit state or inputs.
-/

namespace Workbench

/-! ### String helpers modelling Rust string operations -/

/-- Rust `String::pop`: remove the last character (no-op on an empty string). -/
def strPop (s : String) : String := ⟨s.data.dropLast⟩

/-- Rust `str::starts_with`, via the character list (the built-in
`String.startsWith` does not reduce inside the kernel). -/
def strStartsWith (s p : String) : Bool := decide (p.data <+: s.data)

/-- Rust `str::contains` with a plain substring pattern, on character lists. -/
def strContainsChars (hay pat : List Char) : Bool := decide (pat <:+: hay)

/-- Strip one trailing carriage return, as Rust `str::lines` does for a line
terminated by a CRLF sequence. -/
def stripCr (l : List Char) : List Char :=
  if l.getLast? = some '\r' then l.dropLast else l

/-- Worker for `rustLines`: `acc` holds the current line, reversed. -/
def rustLinesGo (acc : List Char) : List Char → List (List Char)
  | [] => if acc.isEmpty then [] else [acc.reverse]
  | c :: cs =>
      if c = '\n' then stripCr acc.reverse :: rustLinesGo [] cs
      else rustLinesGo (c :: acc) cs

/-- Rust `str::lines`: split at newlines (stripping a preceding CR); a final
newline produces no trailing empty line, and a final segment without a
newline is kept verbatim. -/
def rustLines (content : List Char) : List (List Char) := rustLinesGo [] content

/-- Rust `[&str]::join("\n")` on character lists. -/
def joinLines : List (List Char) → List Char
  | [] => []
  | [l] => l
  | l :: l2 :: ls => l ++ '\n' :: joinLines (l2 :: ls)

/-! ### Data model (src/db.rs) -/

/-- `db::Status`. -/
inductive Status where
  | planned
  | inProgress
  | review
  | done
deriving DecidableEq

/-- `Status::as_str`. -/
def Status.asStr : Status → String
  | .planned => "planned"
  | .inProgress => "in_progress"
  | .review => "review"
  | .done => "done"

/-- `Status::from_str`. -/
def Status.fromStr : String → Option Status
  | "planned" => some .planned
  | "in_progress" => some .inProgress
  | "review" => some .review
  | "done" => some .done
  | _ => none

/-- `Status::all`. -/
def Status.all : List Status :=
  [.planned, .inProgress, .review, .done]

/-- `db::Project`. -/
structure Project where
  id : Int
  name : String
  path : String
deriving DecidableEq

/-- A row of the `sessions` table: the `status` column is free-form TEXT. -/
structure SessionRow where
  id : Int
  projectId : Int
  name : String
  status : String
  checkoutPath : Option String
  branchName : Option String
  ticketId : Option String
  ticketUrl : Option String
  tmuxWindow : Option String
  claudeSessionId : Option String
deriving DecidableEq

/-- `db::Session`: the in-memory decoding of a session row. -/
structure Session where
  id : Int
  projectId : Int
  name : String
  status : Status
  checkoutPath : Option String
  branchName : Option String
  ticketId : Option String
  ticketUrl : Option String
  tmuxWindow : Option String
  claudeSessionId : Option String
deriving DecidableEq

/-- The row mapper inside `Database::list_sessions`: any unrecognized status
string falls back to `Status::Planned` via `unwrap_or`. -/
def decodeSessionRow (r : SessionRow) : Session :=
  { id := r.id
    projectId := r.projectId
    name := r.name
    status := (Status.fromStr r.status).getD .planned
    checkoutPath := r.checkoutPath
    branchName := r.branchName
    ticketId := r.ticketId
    ticketUrl := r.ticketUrl
    tmuxWindow := r.tmuxWindow
    claudeSessionId := r.claudeSessionId }

/-- `db::Field` (a row of the `fields` table; the inspected schema has no
`visible` column). -/
structure Field where
  id : Int
  projectId : Int
  name : String
  description : String
  displayOrder : Int
deriving DecidableEq

/-- The record store: table contents of the SQLite database. -/
structure Db where
  sessions : List SessionRow
  fields : List Field
  fieldValues : List (Int × Int × String)
deriving DecidableEq

/-- SQLite rowid assignment for an `INTEGER PRIMARY KEY` column without
AUTOINCREMENT: one more than the current maximum (1 on an empty table). -/
def Db.nextSessionId (db : Db) : Int :=
  (db.sessions.foldl (fun m r => max m r.id) 0) + 1

/-- Rowid assignment for the `fields` table, as for `Db.nextSessionId`. -/
def Db.nextFieldId (db : Db) : Int :=
  (db.fields.foldl (fun m f => max m f.id) 0) + 1

/-- The ORDER BY id comparison used by `list_sessions`. -/
def sessionRowOrd (a b : SessionRow) : Prop := a.id ≤ b.id

instance : DecidableRel sessionRowOrd := fun a b =>
  inferInstanceAs (Decidable (a.id ≤ b.id))

instance : IsTotal SessionRow sessionRowOrd := ⟨fun a b => Int.le_total a.id b.id⟩

instance : IsTrans SessionRow sessionRowOrd := ⟨fun _ _ _ h h2 => le_trans h h2⟩

/-- `Database::list_sessions`: the project's rows in id order, decoded. -/
def Db.listSessions (db : Db) (pid : Int) : List Session :=
  (List.insertionSort sessionRowOrd
      (db.sessions.filter (fun r => r.projectId == pid))).map decodeSessionRow

/-- `Database::create_session`: INSERT with status 'planned'. -/
def Db.createSession (db : Db) (pid : Int) (name : String) : Db :=
  let row : SessionRow :=
    { id := db.nextSessionId
      projectId := pid
      name := name
      status := "planned"
      checkoutPath := none
      branchName := none
      ticketId := none
      ticketUrl := none
      tmuxWindow := none
      claudeSessionId := none }
  { db with sessions := db.sessions ++ [row] }

/-- `Database::update_session_status`. -/
def Db.updateSessionStatus (db : Db) (sid : Int) (st : Status) : Db :=
  { db with sessions := db.sessions.map (fun r =>
      if r.id == sid then { r with status := st.asStr } else r) }

/-- `Database::update_session_name`. -/
def Db.updateSessionName (db : Db) (sid : Int) (name : String) : Db :=
  { db with sessions := db.sessions.map (fun r =>
      if r.id == sid then { r with name := name } else r) }

/-- `Database::delete_session`.  The schema declares ON DELETE CASCADE for
field values, but the connection never enables the foreign-key pragma, so
only the session row is removed. -/
def Db.deleteSession (db : Db) (sid : Int) : Db :=
  { db with sessions := db.sessions.filter (fun r => ¬ r.id == sid) }

/-- `Database::set_tmux_session`. -/
def Db.setTmuxSession (db : Db) (sid : Int) (tmuxName : String) : Db :=
  { db with sessions := db.sessions.map (fun r =>
      if r.id == sid then { r with tmuxWindow := some tmuxName } else r) }

/-- `Database::clear_tmux_session`. -/
def Db.clearTmuxSession (db : Db) (sid : Int) : Db :=
  { db with sessions := db.sessions.map (fun r =>
      if r.id == sid then { r with tmuxWindow := none } else r) }

/-- The ORDER BY display_order, id comparison used by `list_fields`. -/
def fieldOrd (a b : Field) : Prop :=
  a.displayOrder < b.displayOrder ∨ (a.displayOrder = b.displayOrder ∧ a.id ≤ b.id)

instance : DecidableRel fieldOrd := fun a b =>
  inferInstanceAs (Decidable (_ ∨ _))

instance : IsTotal Field fieldOrd := ⟨by
  intro a b
  unfold fieldOrd
  omega⟩

instance : IsTrans Field fieldOrd := ⟨by
  intro a b c hab hbc
  unfold fieldOrd at hab hbc ⊢
  omega⟩

/-- `Database::list_fields`: the project's fields ordered by
display_order then id. -/
def Db.listFields (db : Db) (pid : Int) : List Field :=
  List.insertionSort fieldOrd (db.fields.filter (fun f => f.projectId == pid))

/-- COALESCE(MAX(display_order), -1) over the project's fields. -/
def Db.maxFieldOrder (db : Db) (pid : Int) : Int :=
  (db.fields.filter (fun f => f.projectId == pid)).foldl
    (fun m f => max m f.displayOrder) (-1)

/-- `Database::create_field`: INSERT with display_order = max + 1. -/
def Db.createField (db : Db) (pid : Int) (name description : String) : Db :=
  let field : Field :=
    { id := db.nextFieldId
      projectId := pid
      name := name
      description := description
      displayOrder := db.maxFieldOrder pid + 1 }
  { db with fields := db.fields ++ [field] }

/-- `Database::update_field`. -/
def Db.updateField (db : Db) (fid : Int) (name description : String) : Db :=
  { db with fields := db.fields.map (fun f =>
      if f.id == fid then { f with name := name, description := description } else f) }

/-- `Database::delete_field`. -/
def Db.deleteField (db : Db) (fid : Int) : Db :=
  { db with fields := db.fields.filter (fun f => ¬ f.id == fid) }

/-- One `UPDATE fields SET display_order = ?1 WHERE id = ?2` statement, the
building block of `move_field_up` / `move_field_down`. -/
def Db.setFieldOrder (db : Db) (fid : Int) (order : Int) : Db :=
  { db with fields := db.fields.map (fun f =>
      if f.id == fid then { f with displayOrder := order } else f) }

/-- `Database::move_field_up`: swap display_order with the previous field in
`list_fields` order, if any. -/
def Db.moveFieldUp (db : Db) (pid : Int) (fid : Int) : Db :=
  let fields := db.listFields pid
  match fields.findIdx? (fun f => f.id == fid) with
  | some i =>
      if 0 < i then
        match fields[i - 1]?, fields[i]? with
        | some prev, some curr =>
            (db.setFieldOrder fid prev.displayOrder).setFieldOrder prev.id curr.displayOrder
        | _, _ => db
      else db
  | none => db

/-- `Database::move_field_down`: swap display_order with the next field in
`list_fields` order, if any. -/
def Db.moveFieldDown (db : Db) (pid : Int) (fid : Int) : Db :=
  let fields := db.listFields pid
  match fields.findIdx? (fun f => f.id == fid) with
  | some i =>
      if i + 1 < fields.length then
        match fields[i + 1]?, fields[i]? with
        | some next, some curr =>
            (db.setFieldOrder fid next.displayOrder).setFieldOrder next.id curr.displayOrder
        | _, _ => db
      else db
  | none => db

/-- `Database::get_session_field_value`: `unwrap_or_default` yields the empty
string when no row matches. -/
def Db.getSessionFieldValue (db : Db) (sid : Int) (fid : Int) : String :=
  match db.fieldValues.find? (fun v => v.1 == sid && v.2.1 == fid) with
  | some v => v.2.2
  | none => ""

/-- `Database::set_session_field_value`: upsert on (session_id, field_id). -/
def Db.setSessionFieldValue (db : Db) (sid : Int) (fid : Int) (value : String) : Db :=
  if db.fieldValues.any (fun v => v.1 == sid && v.2.1 == fid) then
    { db with fieldValues := db.fieldValues.map (fun v =>
        if v.1 == sid && v.2.1 == fid then (v.1, v.2.1, value) else v) }
  else
    { db with fieldValues := db.fieldValues ++ [(sid, fid, value)] }

/-- Modelled from the spec: the settings view has a visibility-toggle key
that flips a Field's visible flag in place.  The `fields` schema in the
inspected src/db.rs has no visible column and no `toggle_field_visibility`
accessor (src/app.rs calls one from a newer iteration not under src/), so
the toggle is modelled as leaving the store unchanged. -/
def Db.toggleFieldVisibility (db : Db) (fid : Int) : Db :=
  let _ := fid
  db

/-! ### Terminal session manager model (src/tmux.rs)

The external tmux server is modelled as a `World`: the list of live session
names, the capturable pane contents, whether the tmux binary is available,
and the current UNIX timestamp (used for collision suffixes). -/

/-- The external tmux server and clock. -/
structure World where
  tmuxAvailable : Bool
  live : List String
  panes : List (String × String)
  now : Int
deriving DecidableEq

/-- `tmux::session_name`. -/
def sessionName (pid : Int) (sid : Int) : String :=
  "workbench-" ++ toString pid ++ "-" ++ toString sid

/-- `tmux::list_workbench_sessions`: live sessions filtered by the
workbench name prefix. -/
def World.listWorkbenchSessions (w : World) : List String :=
  w.live.filter (fun n => strStartsWith n "workbench-")

/-- `tmux::list_project_sessions`. -/
def World.listProjectSessions (w : World) (pid : Int) : List String :=
  w.live.filter (fun n => strStartsWith n ("workbench-" ++ toString pid ++ "-"))

/-- `tmux::session_exists`. -/
def World.sessionExists (w : World) (name : String) : Bool :=
  w.live.contains name

/-- `tmux::kill_session`: best-effort removal, returning whether the kill
succeeded (the session existed). -/
def World.killSession (w : World) (name : String) : World × Bool :=
  if w.live.contains name then
    ({ w with live := w.live.filter (fun n => ¬ n == name) }, true)
  else (w, false)

/-- `tmux::create_session` (the handler calls it only after checking
`is_available`; the success path adds the session to the live set). -/
def World.createTmuxSession (w : World) (name : String) : World :=
  { w with live := w.live ++ [name] }

/-- `tmux::capture_pane_content`: `none` models a failed capture. -/
def World.capturePaneContent (w : World) (name : String) : Option String :=
  (w.panes.find? (fun p => p.1 == name)).map (fun p => p.2)

/-- The fixed prompt substrings scanned for by `tmux::is_waiting_for_input`. -/
def promptPatterns : List (List Char) :=
  [ "Enter to select".data
  , "Do you want to".data
  , "yes/yes to all/no".data
  , "Allow once".data
  , "Allow always".data
  , "(y/n)".data
  , "[Y/n]".data
  , "[y/N]".data ]

/-- `tmux::is_waiting_for_input`, as a function of the capture-pane result
(`none` models a failed capture): join the last 5 lines (in reverse order,
as the Rust code does) and test the fixed prompt substrings. -/
def isWaitingForInput (capture : Option String) : Bool :=
  match capture with
  | some content =>
      let lastLines := joinLines ((rustLines content.data).reverse.take 5)
      strContainsChars lastLines "Enter to select".data
        || strContainsChars lastLines "Do you want to".data
        || strContainsChars lastLines "yes/yes to all/no".data
        || strContainsChars lastLines "Allow once".data
        || strContainsChars lastLines "Allow always".data
        || strContainsChars lastLines "(y/n)".data
        || strContainsChars lastLines "[Y/n]".data
        || strContainsChars lastLines "[y/N]".data
  | none => false

/-- `tmux::is_waiting_for_input` against the modelled world. -/
def World.isWaiting (w : World) (name : String) : Bool :=
  isWaitingForInput (w.capturePaneContent name)

/-! ### AI fill worker model (src/ai.rs) -/

/-- The `Result<Vec<String>, String>` sent over the worker channel. -/
inductive AiResult where
  | ok (values : List String)
  | err (e : String)
deriving DecidableEq

/-- Rust `Vec::resize(new_len, value)` on string vectors: truncate when the
new length is smaller, right-pad with `pad` when it is larger. -/
def vecResize (v : List String) (n : Nat) (pad : String) : List String :=
  if n ≤ v.length then v.take n else v ++ List.replicate (n - v.length) pad

/-- The tail of `ai::fill_fields`: the values parsed from the AI response
are resized to the field count before being returned. -/
def fillFieldsFix (values : List String) (fields : List (String × String)) : List String :=
  vecResize values fields.length ""

/-- The worker closure in `App::run_ai_fill`: the raw `fill_fields` result
is resized to `num_fields` (the edit-buffer length captured at spawn). -/
def aiWorkerResult (raw : AiResult) (numFields : Nat) : AiResult :=
  match raw with
  | .ok values => .ok (vecResize values numFields "")
  | .err e => .err e

/-- The positional overwrite loop in `App::check_ai_result`:
entry `i` of the old buffer vector is replaced by entry `i` of the new
values whenever `i` is in range for both; the length never changes. -/
def overwriteVals : List String → List String → List String
  | old, [] => old
  | [], _ => []
  | _ :: os, v :: vs => v :: overwriteVals os vs

/-! ### Application controller model (src/app.rs) -/

/-- `app::View`. -/
inductive View where
  | kanban
  | settings
deriving DecidableEq

/-- `app::InputMode`. -/
inductive InputMode where
  | normal
  | newSession
  | editSession
  | moveSession
  | confirmDelete
  | confirmDeleteField
  | newFieldName
  | newFieldDesc
  | editFieldName
  | editFieldDesc
deriving DecidableEq

/-- `app::EditMode`. -/
inductive EditMode where
  | manual
  | ai
deriving DecidableEq

/-- `app::AppAction`. -/
inductive AppAction where
  | none
  | attachTmux (name : String)
deriving DecidableEq

/-- Crossterm key codes the controller distinguishes. -/
inductive KeyCode where
  | char (c : Char)
  | enter
  | esc
  | backspace
  | tab
  | backTab
  | up
  | down
  | left
  | right
  | other
deriving DecidableEq

/-- A crossterm key event: code plus the modifiers the controller reads. -/
structure KeyEvent where
  code : KeyCode
  ctrl : Bool
  shift : Bool
deriving DecidableEq

/-- `app::App`: all mutable controller state.  The one-shot worker channel
`ai_result_rx` is modelled by `Option (Option AiResult)`: `none` means no
receiver is installed, `some none` a receiver whose message has not arrived,
`some (some r)` a receiver with message `r` ready for `try_recv`. -/
structure App where
  shouldQuit : Bool
  db : Db
  project : Project
  sessions : List Session
  selectedColumn : Nat
  selectedRow : Nat
  inputMode : InputMode
  inputBuffer : String
  activeTmuxSessions : List String
  sessionsWaitingInput : List String
  editingSessionId : Option Int
  movingSessionId : Option Int
  deletingSessionId : Option Int
  peekActive : Bool
  editRow : Nat
  editSessionName : String
  editFieldValues : List String
  editMode : EditMode
  aiInput : String
  aiRunning : Bool
  aiError : Option String
  aiResultRx : Option (Option AiResult)
  view : View
  fields : List Field
  selectedField : Nat
  editingFieldId : Option Int
  deletingFieldId : Option Int
  newFieldName : String
  newFieldDesc : String
  statusMessage : Option String
deriving DecidableEq

/-- The controller together with the external world it talks to. -/
structure Sys where
  app : App
  world : World
deriving DecidableEq

/-- `App::sessions_by_status`. -/
def App.sessionsByStatus (a : App) (st : Status) : List Session :=
  a.sessions.filter (fun s => s.status == st)

/-- `App::selected_session`. -/
def App.selectedSession (a : App) : Option Session :=
  match Status.all[a.selectedColumn]? with
  | some st => (a.sessionsByStatus st)[a.selectedRow]?
  | none => none

/-- `App::clamp_row`.  The Rust code indexes `Status::all()` directly; every
reachable state keeps `selected_column < 4`, and the total embedding uses a
default of `planned` out of range. -/
def App.clampRow (a : App) : App :=
  let st := Status.all.getD a.selectedColumn .planned
  let count := (a.sessionsByStatus st).length
  if count = 0 then { a with selectedRow := 0 }
  else if count ≤ a.selectedRow then { a with selectedRow := count - 1 }
  else a

/-- `App::refresh_tmux_sessions`: recompute the live and waiting sets and
clear stale tmux handles in the store (but not in the in-memory list). -/
def Sys.refreshTmuxSessions (s : Sys) : Sys :=
  let active := s.world.listWorkbenchSessions
  let waiting := active.filter (fun n => s.world.isWaiting n)
  let db := s.app.sessions.foldl
    (fun db sess =>
      match sess.tmuxWindow with
      | some n => if active.contains n then db else db.clearTmuxSession sess.id
      | none => db)
    s.app.db
  { s with app := { s.app with
      activeTmuxSessions := active
      sessionsWaitingInput := waiting
      db := db } }

/-- `App::refresh_sessions`. -/
def Sys.refreshSessions (s : Sys) : Sys :=
  Sys.refreshTmuxSessions
    { s with app := { s.app with sessions := s.app.db.listSessions s.app.project.id } }

/-- `App::refresh_fields`. -/
def Sys.refreshFields (s : Sys) : Sys :=
  { s with app := { s.app with fields := s.app.db.listFields s.app.project.id } }

/-- `App::save_current_edit_row`. -/
def App.saveCurrentEditRow (a : App) : App :=
  if a.editRow = 0 then { a with editSessionName := a.inputBuffer }
  else
    let fieldIdx := a.editRow - 1
    if fieldIdx < a.editFieldValues.length then
      { a with editFieldValues := a.editFieldValues.set fieldIdx a.inputBuffer }
    else a

/-- `App::load_current_edit_row`. -/
def App.loadCurrentEditRow (a : App) : App :=
  if a.editRow = 0 then { a with inputBuffer := a.editSessionName }
  else
    match a.editFieldValues[a.editRow - 1]? with
    | some value => { a with inputBuffer := value }
    | none => { a with inputBuffer := "" }

/-- `App::run_ai_fill` (controller-visible effects only: the worker thread
and its external AI call run off-thread, so the fresh channel is installed
with no message yet). -/
def runAiFill (s : Sys) : Sys :=
  let fields := s.app.fields.map (fun f => (f.name, f.description))
  if fields.isEmpty then s
  else
    { s with app := { s.app with
        aiResultRx := some none
        aiRunning := true
        aiError := none } }

/-- `App::check_ai_result`: the non-blocking `try_recv` on the worker
channel and the merge of a received result. -/
def checkAiResult (s : Sys) : Sys :=
  match s.app.aiResultRx with
  | some (some result) =>
      let a := s.app
      let a :=
        match result with
        | .ok values =>
            { a with editFieldValues := overwriteVals a.editFieldValues values
                     aiError := none }
        | .err e => { a with aiError := some e }
      let a := { a with editMode := .manual, editRow := 0 }
      let a := a.loadCurrentEditRow
      { s with app := { a with aiInput := "", aiRunning := false, aiResultRx := none } }
  | _ => s

/-- `App::handle_enter_key` (Normal mode): attach to or create the selected
session's tmux session. -/
def handleEnterKey (s : Sys) : Sys × AppAction :=
  if ¬ s.world.tmuxAvailable then (s, .none)
  else
    match s.app.selectedSession with
    | none => (s, .none)
    | some sess =>
        let existing : Option String :=
          match sess.tmuxWindow with
          | some n => if s.world.sessionExists n then some n else none
          | none => none
        match existing with
        | some n => (s, .attachTmux n)
        | none =>
            let baseName := sessionName s.app.project.id sess.id
            let tmuxName :=
              if s.world.sessionExists baseName then
                baseName ++ "-" ++ toString s.world.now
              else baseName
            let w := s.world.createTmuxSession tmuxName
            let db := s.app.db.setTmuxSession sess.id tmuxName
            ({ s with
                world := w
                app := { s.app with
                  db := db
                  activeTmuxSessions := tmuxName :: s.app.activeTmuxSessions } },
              .attachTmux tmuxName)

/-- `App::cleanup_orphaned_tmux_sessions`. -/
def cleanupOrphanedTmuxSessions (s : Sys) : Sys :=
  let tmuxSessions := s.world.listProjectSessions s.app.project.id
  let tracked := s.app.sessions.filterMap (fun x => x.tmuxWindow)
  let step := fun (acc : World × Nat) (name : String) =>
    if tracked.contains name then acc
    else
      let r := acc.1.killSession name
      if r.2 then (r.1, acc.2 + 1) else (r.1, acc.2)
  let wk := tmuxSessions.foldl step (s.world, 0)
  let msg :=
    if wk.2 = 0 then "No orphaned sessions found"
    else "Cleaned up " ++ toString wk.2 ++ " orphaned session"
        ++ (if wk.2 = 1 then "" else "s")
  Sys.refreshTmuxSessions
    { s with world := wk.1, app := { s.app with statusMessage := some msg } }

/-- `App::handle_normal_key` (Normal mode, Kanban view). -/
def handleNormalKey (s : Sys) (k : KeyEvent) : Sys × AppAction :=
  let a := s.app
  match k.code with
  | .char 'q' => ({ s with app := { a with shouldQuit := true } }, .none)
  | .char 'c' =>
      if k.ctrl then ({ s with app := { a with shouldQuit := true } }, .none)
      else (s, .none)
  | .char 'n' =>
      ({ s with app := { a with inputMode := .newSession, inputBuffer := "" } }, .none)
  | .char 'h' | .left =>
      if 0 < a.selectedColumn then
        ({ s with app := App.clampRow { a with selectedColumn := a.selectedColumn - 1 } }, .none)
      else (s, .none)
  | .char 'l' | .right =>
      if a.selectedColumn < Status.all.length - 1 then
        ({ s with app := App.clampRow { a with selectedColumn := a.selectedColumn + 1 } }, .none)
      else (s, .none)
  | .char 'j' | .down =>
      let st := Status.all.getD a.selectedColumn .planned
      let count := (a.sessionsByStatus st).length
      if a.selectedRow < count - 1 then
        ({ s with app := { a with selectedRow := a.selectedRow + 1 } }, .none)
      else (s, .none)
  | .char 'k' | .up =>
      if 0 < a.selectedRow then
        ({ s with app := { a with selectedRow := a.selectedRow - 1 } }, .none)
      else (s, .none)
  | .char 'm' =>
      match a.selectedSession with
      | some sess =>
          ({ s with app := { a with
              movingSessionId := some sess.id
              inputMode := .moveSession } }, .none)
      | none => (s, .none)
  | .char 'd' =>
      match a.selectedSession with
      | some sess =>
          ({ s with app := { a with
              deletingSessionId := some sess.id
              inputMode := .confirmDelete } }, .none)
      | none => (s, .none)
  | .char 'r' => (s.refreshSessions, .none)
  | .char 'e' =>
      match a.selectedSession with
      | some sess =>
          let fieldValues := a.fields.map (fun f => a.db.getSessionFieldValue sess.id f.id)
          ({ s with app := { a with
              editingSessionId := some sess.id
              editSessionName := sess.name
              editRow := 0
              inputBuffer := sess.name
              editFieldValues := fieldValues
              inputMode := .editSession } }, .none)
      | none => (s, .none)
  | .enter => handleEnterKey s
  | .char ' ' =>
      match a.selectedSession with
      | some sess =>
          match sess.tmuxWindow with
          | some _ => ({ s with app := { a with peekActive := ¬ a.peekActive } }, .none)
          | none => (s, .none)
      | none => (s, .none)
  | .char 's' =>
      ({ s with app := { a with view := .settings, selectedField := 0 } }, .none)
  | .char 'x' => (cleanupOrphanedTmuxSessions s, .none)
  | _ => (s, .none)

/-- `App::handle_input_key` (NewSession mode). -/
def handleInputKey (s : Sys) (k : KeyEvent) : Sys :=
  let a := s.app
  match k.code with
  | .esc => { s with app := { a with inputMode := .normal, inputBuffer := "" } }
  | .enter =>
      let s2 :=
        if ¬ a.inputBuffer.isEmpty then
          Sys.refreshSessions
            { s with app := { a with db := a.db.createSession a.project.id a.inputBuffer } }
        else s
      { s2 with app := { s2.app with inputMode := .normal, inputBuffer := "" } }
  | .backspace => { s with app := { a with inputBuffer := strPop a.inputBuffer } }
  | .char c => { s with app := { a with inputBuffer := a.inputBuffer.push c } }
  | _ => s

/-- `App::save_and_close_edit`. -/
def saveAndCloseEdit (s : Sys) : Sys :=
  let s2 :=
    match s.app.editingSessionId with
    | some sessionId =>
        let db :=
          if ¬ s.app.editSessionName.isEmpty then
            s.app.db.updateSessionName sessionId s.app.editSessionName
          else s.app.db
        let db := s.app.fields.enum.foldl
          (fun (db : Db) (p : Nat × Field) =>
            match s.app.editFieldValues[p.1]? with
            | some value => db.setSessionFieldValue sessionId p.2.id value
            | none => db)
          db
        Sys.refreshSessions { s with app := { s.app with db := db } }
    | none => s
  { s2 with app := { s2.app with
      inputMode := .normal
      inputBuffer := ""
      editingSessionId := none
      editSessionName := ""
      editFieldValues := []
      editMode := .manual
      aiInput := "" } }

/-- `App::handle_manual_edit_key` (EditSession mode, Manual sub-mode). -/
def handleManualEditKey (s : Sys) (k : KeyEvent) (totalRows : Nat) : Sys :=
  match k.code with
  | .tab | .down =>
      let a := s.app.saveCurrentEditRow
      let a :=
        if a.editRow < totalRows - 1 then { a with editRow := a.editRow + 1 }
        else { a with editRow := 0 }
      { s with app := a.loadCurrentEditRow }
  | .backTab | .up =>
      let a := s.app.saveCurrentEditRow
      let a :=
        if 0 < a.editRow then { a with editRow := a.editRow - 1 }
        else { a with editRow := totalRows - 1 }
      { s with app := a.loadCurrentEditRow }
  | .enter => saveAndCloseEdit { s with app := s.app.saveCurrentEditRow }
  | .backspace => { s with app := { s.app with inputBuffer := strPop s.app.inputBuffer } }
  | .char c => { s with app := { s.app with inputBuffer := s.app.inputBuffer.push c } }
  | _ => s

/-- `App::handle_ai_edit_key` (EditSession mode, AI sub-mode). -/
def handleAiEditKey (s : Sys) (k : KeyEvent) : Sys :=
  let a := s.app
  match k.code with
  | .tab | .down =>
      let totalRows := 1 + a.fields.length
      if a.editRow < totalRows - 1 then
        { s with app := { a with editRow := a.editRow + 1 } }
      else { s with app := { a with editRow := 0 } }
  | .backTab | .up =>
      let totalRows := 1 + a.fields.length
      if 0 < a.editRow then
        { s with app := { a with editRow := a.editRow - 1 } }
      else { s with app := { a with editRow := totalRows - 1 } }
  | .enter => if ¬ a.aiInput.isEmpty then runAiFill s else s
  | .backspace => { s with app := { a with aiInput := strPop a.aiInput } }
  | .char c => { s with app := { a with aiInput := a.aiInput.push c } }
  | _ => s

/-- `App::handle_edit_session_key` (EditSession mode). -/
def handleEditSessionKey (s : Sys) (k : KeyEvent) : Sys :=
  let totalRows := 1 + s.app.fields.length
  match k.code with
  | .esc =>
      { s with app := { s.app with
          inputMode := .normal
          inputBuffer := ""
          editingSessionId := none
          editSessionName := ""
          editFieldValues := []
          editMode := .manual
          aiInput := "" } }
  | .backTab =>
      if k.shift then
        let a := if s.app.editMode = .manual then s.app.saveCurrentEditRow else s.app
        let a :=
          { a with editMode :=
              match a.editMode with
              | .manual => EditMode.ai
              | .ai => EditMode.manual }
        let a := if a.editMode = .manual then a.loadCurrentEditRow else a
        { s with app := a }
      else
        match s.app.editMode with
        | .manual => handleManualEditKey s k totalRows
        | .ai => handleAiEditKey s k
  | _ =>
      match s.app.editMode with
      | .manual => handleManualEditKey s k totalRows
      | .ai => handleAiEditKey s k

/-- `App::handle_paste`. -/
def handlePaste (s : Sys) (text : String) : Sys :=
  let a := s.app
  match a.inputMode with
  | .editSession =>
      if a.editMode = .ai then { s with app := { a with aiInput := a.aiInput ++ text } }
      else { s with app := { a with inputBuffer := a.inputBuffer ++ text } }
  | .newSession => { s with app := { a with inputBuffer := a.inputBuffer ++ text } }
  | .newFieldName => { s with app := { a with newFieldName := a.newFieldName ++ text } }
  | .newFieldDesc => { s with app := { a with newFieldDesc := a.newFieldDesc ++ text } }
  | .editFieldName => { s with app := { a with newFieldName := a.newFieldName ++ text } }
  | .editFieldDesc => { s with app := { a with newFieldDesc := a.newFieldDesc ++ text } }
  | _ => s

/-- `App::handle_move_key` (MoveSession mode). -/
def handleMoveKey (s : Sys) (k : KeyEvent) : Sys :=
  let a := s.app
  match k.code with
  | .esc => { s with app := { a with inputMode := .normal, movingSessionId := none } }
  | .char c =>
      if '1' ≤ c ∧ c ≤ '4' then
        let idx := c.toNat - '1'.toNat
        let s2 :=
          if idx < Status.all.length then
            match a.movingSessionId with
            | some sessionId =>
                Sys.refreshSessions
                  { s with app := { a with
                      db := a.db.updateSessionStatus sessionId (Status.all.getD idx .planned) } }
            | none => s
          else s
        { s2 with app := { s2.app with inputMode := .normal, movingSessionId := none } }
      else s
  | _ => s

/-- `App::handle_confirm_delete_key` (ConfirmDelete mode). -/
def handleConfirmDeleteKey (s : Sys) (k : KeyEvent) : Sys :=
  match k.code with
  | .char 'y' | .char 'Y' =>
      let s2 :=
        match s.app.deletingSessionId with
        | some sessionId =>
            let w :=
              match (s.app.sessions.find? (fun (x : Session) => x.id == sessionId)).bind
                  (fun (x : Session) => x.tmuxWindow) with
              | some tmuxName => (s.world.killSession tmuxName).1
              | none => s.world
            let s3 := Sys.refreshSessions
              { s with world := w
                       app := { s.app with db := s.app.db.deleteSession sessionId } }
            { s3 with app := s3.app.clampRow }
        | none => s
      { s2 with app := { s2.app with inputMode := .normal, deletingSessionId := none } }
  | .char 'n' | .char 'N' | .esc =>
      { s with app := { s.app with inputMode := .normal, deletingSessionId := none } }
  | _ => s

/-- `App::handle_confirm_delete_field_key` (ConfirmDeleteField mode). -/
def handleConfirmDeleteFieldKey (s : Sys) (k : KeyEvent) : Sys :=
  match k.code with
  | .char 'y' | .char 'Y' =>
      let s2 :=
        match s.app.deletingFieldId with
        | some fieldId =>
            let s3 := Sys.refreshFields
              { s with app := { s.app with db := s.app.db.deleteField fieldId } }
            if s3.app.fields.length ≤ s3.app.selectedField ∧ 0 < s3.app.selectedField then
              { s3 with app := { s3.app with selectedField := s3.app.selectedField - 1 } }
            else s3
        | none => s
      { s2 with app := { s2.app with inputMode := .normal, deletingFieldId := none } }
  | .char 'n' | .char 'N' | .esc =>
      { s with app := { s.app with inputMode := .normal, deletingFieldId := none } }
  | _ => s

/-- `App::handle_settings_key` (Normal mode, Settings view). -/
def handleSettingsKey (s : Sys) (k : KeyEvent) : Sys :=
  let a := s.app
  match k.code with
  | .char 'q' | .esc => { s with app := { a with view := .kanban } }
  | .char 'c' =>
      if k.ctrl then { s with app := { a with shouldQuit := true } } else s
  | .char 'j' | .down =>
      if ¬ a.fields.isEmpty ∧ a.selectedField < a.fields.length - 1 then
        { s with app := { a with selectedField := a.selectedField + 1 } }
      else s
  | .char 'k' | .up =>
      if 0 < a.selectedField then
        { s with app := { a with selectedField := a.selectedField - 1 } }
      else s
  | .char 'n' =>
      { s with app := { a with
          newFieldName := ""
          newFieldDesc := ""
          inputMode := .newFieldName } }
  | .char 'e' =>
      match a.fields[a.selectedField]? with
      | some field =>
          { s with app := { a with
              editingFieldId := some field.id
              newFieldName := field.name
              newFieldDesc := field.description
              inputMode := .editFieldName } }
      | none => s
  | .char 'd' =>
      match a.fields[a.selectedField]? with
      | some field =>
          { s with app := { a with
              deletingFieldId := some field.id
              inputMode := .confirmDeleteField } }
      | none => s
  | .char 'K' =>
      match a.fields[a.selectedField]? with
      | some field =>
          let s2 := Sys.refreshFields
            { s with app := { a with db := a.db.moveFieldUp a.project.id field.id } }
          if 0 < s2.app.selectedField then
            { s2 with app := { s2.app with selectedField := s2.app.selectedField - 1 } }
          else s2
      | none => s
  | .char 'J' =>
      match a.fields[a.selectedField]? with
      | some field =>
          let s2 := Sys.refreshFields
            { s with app := { a with db := a.db.moveFieldDown a.project.id field.id } }
          if s2.app.selectedField < s2.app.fields.length - 1 then
            { s2 with app := { s2.app with selectedField := s2.app.selectedField + 1 } }
          else s2
      | none => s
  | .char 'v' =>
      match a.fields[a.selectedField]? with
      | some field =>
          Sys.refreshFields
            { s with app := { a with db := a.db.toggleFieldVisibility field.id } }
      | none => s
  | _ => s

/-- `App::handle_new_field_name_key`. -/
def handleNewFieldNameKey (s : Sys) (k : KeyEvent) : Sys :=
  let a := s.app
  match k.code with
  | .esc =>
      { s with app := { a with inputMode := .normal, newFieldName := "", newFieldDesc := "" } }
  | .enter =>
      if ¬ a.newFieldName.isEmpty then
        { s with app := { a with inputMode := .newFieldDesc } }
      else s
  | .backspace => { s with app := { a with newFieldName := strPop a.newFieldName } }
  | .char c => { s with app := { a with newFieldName := a.newFieldName.push c } }
  | _ => s

/-- `App::handle_new_field_desc_key`. -/
def handleNewFieldDescKey (s : Sys) (k : KeyEvent) : Sys :=
  let a := s.app
  match k.code with
  | .esc =>
      { s with app := { a with inputMode := .normal, newFieldName := "", newFieldDesc := "" } }
  | .enter =>
      let s2 := Sys.refreshFields
        { s with app := { a with db := a.db.createField a.project.id a.newFieldName a.newFieldDesc } }
      { s2 with app := { s2.app with
          inputMode := .normal
          newFieldName := ""
          newFieldDesc := "" } }
  | .backspace => { s with app := { a with newFieldDesc := strPop a.newFieldDesc } }
  | .char c => { s with app := { a with newFieldDesc := a.newFieldDesc.push c } }
  | _ => s

/-- `App::handle_edit_field_name_key`. -/
def handleEditFieldNameKey (s : Sys) (k : KeyEvent) : Sys :=
  let a := s.app
  match k.code with
  | .esc =>
      { s with app := { a with
          inputMode := .normal
          editingFieldId := none
          newFieldName := ""
          newFieldDesc := "" } }
  | .enter =>
      if ¬ a.newFieldName.isEmpty then
        { s with app := { a with inputMode := .editFieldDesc } }
      else s
  | .backspace => { s with app := { a with newFieldName := strPop a.newFieldName } }
  | .char c => { s with app := { a with newFieldName := a.newFieldName.push c } }
  | _ => s

/-- `App::handle_edit_field_desc_key`. -/
def handleEditFieldDescKey (s : Sys) (k : KeyEvent) : Sys :=
  let a := s.app
  match k.code with
  | .esc =>
      { s with app := { a with
          inputMode := .normal
          editingFieldId := none
          newFieldName := ""
          newFieldDesc := "" } }
  | .enter =>
      let s2 :=
        match a.editingFieldId with
        | some fieldId =>
            Sys.refreshFields
              { s with app := { a with db := a.db.updateField fieldId a.newFieldName a.newFieldDesc } }
        | none => s
      { s2 with app := { s2.app with
          inputMode := .normal
          editingFieldId := none
          newFieldName := ""
          newFieldDesc := "" } }
  | .backspace => { s with app := { a with newFieldDesc := strPop a.newFieldDesc } }
  | .char c => { s with app := { a with newFieldDesc := a.newFieldDesc.push c } }
  | _ => s

/-- The `Event::Key` branch of `App::handle_events`: the status message is
cleared on every keypress, the `ai_running` flag then gates all key
handling, and otherwise the event is dispatched on the current input mode.
(The non-blocking channel poll `check_ai_result` runs before the event poll
and is modelled separately as `checkAiResult`.) -/
def dispatchKey (s : Sys) (k : KeyEvent) : Sys × AppAction :=
  let s := { s with app := { s.app with statusMessage := none } }
  if s.app.aiRunning then (s, .none)
  else
    match s.app.inputMode with
    | .normal =>
        match s.app.view with
        | .kanban => handleNormalKey s k
        | .settings => (handleSettingsKey s k, .none)
    | .newSession => (handleInputKey s k, .none)
    | .editSession => (handleEditSessionKey s k, .none)
    | .moveSession => (handleMoveKey s k, .none)
    | .confirmDelete => (handleConfirmDeleteKey s k, .none)
    | .confirmDeleteField => (handleConfirmDeleteFieldKey s k, .none)
    | .newFieldName => (handleNewFieldNameKey s k, .none)
    | .newFieldDesc => (handleNewFieldDescKey s k, .none)
    | .editFieldName => (handleEditFieldNameKey s k, .none)
    | .editFieldDesc => (handleEditFieldDescKey s k, .none)

/-! ### Session-level store operations, for stating store/UI convergence -/

/-- A user-level session mutation: the operations quantified over by the
store/UI convergence property. -/
inductive SessionOp where
  | create (name : String)
  | rename (sid : Int) (name : String)
  | delete (sid : Int)
deriving DecidableEq

/-- Apply one session operation to the store. -/
def Db.applySessionOp (db : Db) (pid : Int) : SessionOp → Db
  | .create name => db.createSession pid name
  | .rename sid name => db.updateSessionName sid name
  | .delete sid => db.deleteSession sid

/-- Apply a sequence of session operations to the store. -/
def Db.applySessionOps (db : Db) (pid : Int) (ops : List SessionOp) : Db :=
  ops.foldl (fun db op => db.applySessionOp pid op) db

/-! ### Properties referred to by several claims -/

/-- Selection-index invariant: the selected row is below the session count
of the active column, or pinned to 0 when that column is empty. -/
def App.rowInRange (a : App) : Prop :=
  a.selectedRow <
      (a.sessionsByStatus (Status.all.getD a.selectedColumn .planned)).length
    ∨ ((a.sessionsByStatus (Status.all.getD a.selectedColumn .planned)).length = 0
        ∧ a.selectedRow = 0)

instance (a : App) : Decidable a.rowInRange :=
  inferInstanceAs (Decidable (_ ∨ _))

/-- Every tmux handle stored for the project's sessions is live in the
world (so the stale-handle cleanup inside a refresh has nothing to clear). -/
def noStaleHandles (db : Db) (pid : Int) (w : World) : Prop :=
  ∀ row ∈ db.sessions, row.projectId = pid →
    row.tmuxWindow.all (fun n => w.listWorkbenchSessions.contains n) = true

instance (db : Db) (pid : Int) (w : World) : Decidable (noStaleHandles db pid w) :=
  inferInstanceAs (Decidable (∀ row ∈ db.sessions, row.projectId = pid →
    row.tmuxWindow.all (fun n => w.listWorkbenchSessions.contains n) = true))

/-! ### Concrete sample states -/

/-- An empty record store. -/
def emptyDb : Db := { sessions := [], fields := [], fieldValues := [] }

/-- A world with no tmux binary and no live sessions. -/
def emptyWorld : World := { tmuxAvailable := false, live := [], panes := [], now := 0 }

/-- A sample project. -/
def sampleProject : Project := { id := 1, name := "proj", path := "/proj" }

/-- A freshly started controller over an empty store. -/
def baseApp : App :=
  { shouldQuit := false
    db := emptyDb
    project := sampleProject
    sessions := []
    selectedColumn := 0
    selectedRow := 0
    inputMode := .normal
    inputBuffer := ""
    activeTmuxSessions := []
    sessionsWaitingInput := []
    editingSessionId := none
    movingSessionId := none
    deletingSessionId := none
    peekActive := false
    editRow := 0
    editSessionName := ""
    editFieldValues := []
    editMode := .manual
    aiInput := ""
    aiRunning := false
    aiError := none
    aiResultRx := none
    view := .kanban
    fields := []
    selectedField := 0
    editingFieldId := none
    deletingFieldId := none
    newFieldName := ""
    newFieldDesc := ""
    statusMessage := none }

/-- A sample planned-session row for project 1. -/
def baseRow : SessionRow :=
  { id := 1
    projectId := 1
    name := "task"
    status := "planned"
    checkoutPath := none
    branchName := none
    ticketId := none
    ticketUrl := none
    tmuxWindow := none
    claudeSessionId := none }

/-- A row whose stored status string is not one of the four encodings. -/
def bogusRow : SessionRow := { baseRow with status := "archived" }

/-- A controller with a worker in flight and a pending status message. -/
def gateSys : Sys :=
  { app := { baseApp with aiRunning := true, statusMessage := some "done" }
    world := emptyWorld }

/-- A controller whose worker channel holds a successful result. -/
def rxSys : Sys :=
  { app := { baseApp with
      aiResultRx := some (some (.ok ["v1", "v2"]))
      editFieldValues := ["a", "b"]
      editMode := .ai
      editRow := 1
      aiRunning := true
      aiInput := "fill these"
      inputMode := .editSession }
    world := emptyWorld }

/-- A store holding one session bound to a live tmux session. -/
def delDb : Db :=
  { emptyDb with sessions := [{ baseRow with tmuxWindow := some "workbench-1-1" }] }

/-- A controller in ConfirmDelete over the tmux-bound session. -/
def delSys : Sys :=
  { app := { baseApp with
      db := delDb
      sessions := delDb.listSessions 1
      inputMode := .confirmDelete
      deletingSessionId := some 1 }
    world := { emptyWorld with live := ["workbench-1-1"] } }

/-- A controller whose stored tmux handle is stale (no longer live). -/
def driftSys : Sys :=
  { app := { baseApp with db := delDb, sessions := delDb.listSessions 1 }
    world := emptyWorld }

/-- A controller whose stored tmux handle is live. -/
def cleanSys : Sys :=
  { app := { baseApp with db := delDb, sessions := delDb.listSessions 1 }
    world := { emptyWorld with live := ["workbench-1-1"] } }

/-- A store with two planned sessions for project 1. -/
def moveDb : Db :=
  { emptyDb with sessions := [baseRow, { baseRow with id := 2, name := "task2" }] }

/-- A controller in MoveSession mode with the second planned session
selected (row 1 of 2 in the Planned column). -/
def moveCexSys : Sys :=
  { app := { baseApp with
      db := moveDb
      sessions := moveDb.listSessions 1
      selectedRow := 1
      inputMode := .moveSession
      movingSessionId := some 2 }
    world := emptyWorld }

/-- A controller in the AI edit sub-mode of a project with no custom
fields and a non-empty prompt. -/
def noFieldsSys : Sys :=
  { app := { baseApp with
      inputMode := .editSession
      editMode := .ai
      aiInput := "hint"
      editingSessionId := some 1 }
    world := emptyWorld }

/-- A store with three fields for project 1, display orders 0, 1, 2. -/
def orderDb : Db :=
  { emptyDb with fields :=
      [ { id := 1, projectId := 1, name := "fa", description := "", displayOrder := 0 }
      , { id := 2, projectId := 1, name := "fb", description := "", displayOrder := 1 }
      , { id := 3, projectId := 1, name := "fc", description := "", displayOrder := 2 } ] }

/-- The digit-2 key. -/
def keyTwo : KeyEvent := { code := .char '2', ctrl := false, shift := false }

/-- The lower-case y key. -/
def keyY : KeyEvent := { code := .char 'y', ctrl := false, shift := false }

/-- The z key (handled by no ConfirmDelete arm). -/
def keyZ : KeyEvent := { code := .char 'z', ctrl := false, shift := false }

/-- The Enter key. -/
def keyEnter : KeyEvent := { code := .enter, ctrl := false, shift := false }

/-- The j key. -/
def keyJ : KeyEvent := { code := .char 'j', ctrl := false, shift := false }

/-! ### Helper lemmas -/

theorem overwriteVals_length :
    ∀ (old values : List String), (overwriteVals old values).length = old.length := by
  intro old
  induction old with
  | nil => intro values; cases values <;> rfl
  | cons o os ih =>
      intro values
      cases values with
      | nil => rfl
      | cons v vs => simpa [overwriteVals] using ih vs

theorem overwriteVals_getElem : ∀ (old values : List String) (i : Nat),
    i < old.length →
    (overwriteVals old values)[i]? =
      if i < values.length then values[i]? else old[i]? := by
  intro old
  induction old with
  | nil => intro values i h; simp at h
  | cons o os ih =>
      intro values i h
      cases values with
      | nil => simp [overwriteVals]
      | cons v vs =>
          cases i with
          | zero => simp [overwriteVals]
          | succ j =>
              have hj : j < os.length := by simpa using h
              simpa [overwriteVals] using ih vs j hj

theorem overwriteVals_eq_of_length : ∀ (old values : List String),
    old.length = values.length → overwriteVals old values = values := by
  intro old
  induction old with
  | nil =>
      intro values h
      cases values with
      | nil => rfl
      | cons v vs => simp at h
  | cons o os ih =>
      intro values h
      cases values with
      | nil => simp at h
      | cons v vs =>
          have := ih vs (by simpa using h)
          simp [overwriteVals, this]

theorem foldl_preserve {α β : Type} (f : β → α → β) (P : β → Prop)
    (hf : ∀ b a, P b → P (f b a)) :
    ∀ (l : List α) (b : β), P b → P (l.foldl f b) := by
  intro l
  induction l with
  | nil => intro b hb; exact hb
  | cons a t ih => intro b hb; exact ih (f b a) (hf b a hb)

theorem find_eq_of_nodup_key {α : Type} (key : α → Int) :
    ∀ (l : List α) (x : α), (l.map key).Nodup → x ∈ l →
      l.find? (fun y => key y == key x) = some x := by
  intro l
  induction l with
  | nil => intro x _ hx; simp at hx
  | cons a t ih =>
      intro x hnd hx
      rcases List.mem_cons.mp hx with rfl | hxt
      · simp [List.find?]
      · have hka : key a ≠ key x := by
          have h1 : key a ∉ t.map key := (List.nodup_cons.mp (by simpa using hnd)).1
          have h2 : key x ∈ t.map key := List.mem_map_of_mem key hxt
          intro he
          exact h1 (he ▸ h2)
        have hnd2 : (t.map key).Nodup := (List.nodup_cons.mp (by simpa using hnd)).2
        have : (key a == key x) = false := by simpa using hka
        simp [List.find?, this, ih x hnd2 hxt]

theorem clearTmux_preserves_id (db : Db) (sid : Int) (P : Int → Prop)
    (h : ∀ row ∈ db.sessions, P row.id) :
    ∀ row ∈ (db.clearTmuxSession sid).sessions, P row.id := by
  intro row hrow
  simp only [Db.clearTmuxSession, List.mem_map] at hrow
  rcases hrow with ⟨row2, hmem, hrow2⟩
  have := h row2 hmem
  by_cases hid : (row2.id == sid) = true <;> subst hrow2 <;> simp [hid, this]

theorem foldl_id_of {α β : Type} (f : β → α → β) :
    ∀ l : List α, (∀ x ∈ l, ∀ b, f b x = b) → ∀ b : β, l.foldl f b = b := by
  intro l
  induction l with
  | nil => intro _ b; rfl
  | cons a t ih =>
      intro h b
      rw [List.foldl_cons, h a (List.mem_cons_self a t) b]
      exact ih (fun x hx => h x (List.mem_cons_of_mem a hx)) b

theorem mem_listSessions {db : Db} {pid : Int} {sess : Session} :
    sess ∈ db.listSessions pid ↔
      ∃ row ∈ db.sessions, row.projectId = pid ∧ decodeSessionRow row = sess := by
  unfold Db.listSessions
  constructor
  · intro h
    rcases List.mem_map.mp h with ⟨row, hrow, hdec⟩
    have h2 : row ∈ db.sessions.filter (fun r => r.projectId == pid) :=
      (List.perm_insertionSort sessionRowOrd _).mem_iff.mp hrow
    rcases List.mem_filter.mp h2 with ⟨hmem, hpid⟩
    exact ⟨row, hmem, by simpa using hpid, hdec⟩
  · rintro ⟨row, hmem, hpid, rfl⟩
    apply List.mem_map_of_mem
    apply (List.perm_insertionSort sessionRowOrd _).mem_iff.mpr
    exact List.mem_filter.mpr ⟨hmem, by simpa using hpid⟩

theorem refreshTmux_no_clear (s : Sys)
    (h : ∀ sess ∈ s.app.sessions, ∀ n, sess.tmuxWindow = some n →
        s.world.listWorkbenchSessions.contains n = true) :
    (s.refreshTmuxSessions).app.db = s.app.db
    ∧ (s.refreshTmuxSessions).app.sessions = s.app.sessions := by
  unfold Sys.refreshTmuxSessions
  refine ⟨?_, rfl⟩
  simp only
  apply foldl_id_of
  intro sess hs b
  cases hw : sess.tmuxWindow with
  | none => simp [hw]
  | some n =>
      have hc := h sess hs n hw
      simp [hw, hc]
      intro hn
      exact absurd (by simpa using hc) hn

theorem refreshSessions_converges (s : Sys)
    (hcond : ∀ sess ∈ s.app.db.listSessions s.app.project.id, ∀ n,
        sess.tmuxWindow = some n →
        s.world.listWorkbenchSessions.contains n = true) :
    (s.refreshSessions).app.sessions
      = (s.refreshSessions).app.db.listSessions s.app.project.id := by
  unfold Sys.refreshSessions
  have hclear := refreshTmux_no_clear
      { s with app := { s.app with sessions := s.app.db.listSessions s.app.project.id } }
      (by simpa using hcond)
  rw [hclear.1, hclear.2]

theorem rowInRange_congr (a b : App) (hs : a.sessions = b.sessions)
    (hc : a.selectedColumn = b.selectedColumn) (hr : a.selectedRow = b.selectedRow) :
    a.rowInRange ↔ b.rowInRange := by
  unfold App.rowInRange App.sessionsByStatus
  rw [hs, hc, hr]

theorem clampRow_rowInRange (a : App) : a.clampRow.rowInRange := by
  simp only [App.clampRow]
  unfold App.rowInRange
  split
  all_goals try split
  all_goals
    try unfold App.sessionsByStatus at *
    try dsimp only at *
    omega

theorem count_listSessions_create (db : Db) (pid : Int) (name : String) (p : Session → Bool) :
    ((db.listSessions pid).filter p).length
      ≤ (((db.createSession pid name).listSessions pid).filter p).length := by
  have key : ∀ rows : List SessionRow,
      (((List.insertionSort sessionRowOrd
            (rows.filter (fun r => r.projectId == pid))).map decodeSessionRow).filter p).length
        = (rows.filter (fun r => r.projectId == pid)).countP
            (fun r => p (decodeSessionRow r)) := by
    intro rows
    rw [← List.countP_eq_length_filter, List.countP_map]
    exact (List.perm_insertionSort sessionRowOrd _).countP_eq _
  unfold Db.listSessions Db.createSession
  simp only
  rw [key, key, List.filter_append, List.countP_append]
  omega

theorem refreshTmux_sessions_eq (s : Sys) :
    (s.refreshTmuxSessions).app.sessions = s.app.sessions := rfl

theorem refreshTmux_selection_eq (s : Sys) :
    (s.refreshTmuxSessions).app.selectedColumn = s.app.selectedColumn
    ∧ (s.refreshTmuxSessions).app.selectedRow = s.app.selectedRow := ⟨rfl, rfl⟩

theorem refreshSessions_sessions_eq (s : Sys) :
    (s.refreshSessions).app.sessions = s.app.db.listSessions s.app.project.id := rfl

theorem refreshSessions_selection_eq (s : Sys) :
    (s.refreshSessions).app.selectedColumn = s.app.selectedColumn
    ∧ (s.refreshSessions).app.selectedRow = s.app.selectedRow := ⟨rfl, rfl⟩

theorem clampRow_db (a : App) : a.clampRow.db = a.db := by
  simp only [App.clampRow]
  split
  · rfl
  · split <;> rfl

theorem clampRow_inputMode (a : App) : a.clampRow.inputMode = a.inputMode := by
  simp only [App.clampRow]
  split
  · rfl
  · split <;> rfl

/-! ### Claims -/

/-- C1: the AI fill pipeline always yields exactly one value per input
field.  Both resize points (the tail of `ai::fill_fields` and the worker
closure of `App::run_ai_fill`) pad a short raw result with empty strings on
the right and truncate a long one; a full-length result is applied to the
edit buffers verbatim.  With 3 fields, raw result ["a","b"] yields
["a","b",""] and raw result ["a","b","c","d"] yields ["a","b","c"]. -/
theorem claim1_ai_fill_length :
    (∀ (values : List String) (fields : List (String × String)),
        (fillFieldsFix values fields).length = fields.length)
    ∧ (∀ (raw : List String) (n : Nat), (vecResize raw n "").length = n)
    ∧ (∀ (raw : List String) (n : Nat), raw.length ≤ n →
        vecResize raw n "" = raw ++ List.replicate (n - raw.length) "")
    ∧ (∀ (raw : List String) (n : Nat), n ≤ raw.length →
        vecResize raw n "" = raw.take n)
    ∧ (∀ (old values : List String), old.length = values.length →
        overwriteVals old values = values)
    ∧ aiWorkerResult (.ok ["a", "b"]) 3 = .ok ["a", "b", ""]
    ∧ aiWorkerResult (.ok ["a", "b", "c", "d"]) 3 = .ok ["a", "b", "c"]
    ∧ fillFieldsFix ["a", "b"] [("f1", ""), ("f2", ""), ("f3", "")] = ["a", "b", ""] := by
  refine ⟨?_, ?_, ?_, ?_, overwriteVals_eq_of_length, by decide, by decide, by decide⟩
  · intro values fields
    unfold fillFieldsFix vecResize
    split
    · simp
      omega
    · simp
      omega
  · intro raw n
    unfold vecResize
    split
    · simp
      omega
    · simp
      omega
  · intro raw n h
    unfold vecResize
    split
    · have : n = raw.length := le_antisymm (by assumption) h
      subst this
      simp
    · rfl
  · intro raw n h
    unfold vecResize
    split
    · rfl
    · have : n = raw.length := le_antisymm h (by omega)
      subst this
      simp

/-- C1 witness: the pipeline padding evaluated at the concrete spec
example. -/
theorem claim1_witness :
    vecResize ["a", "b"] 3 "" =
        ["a", "b"] ++ List.replicate (3 - (["a", "b"] : List String).length) ""
    ∧ overwriteVals ["x", "y", "z"] ["a", "b", ""] = ["a", "b", ""] :=
  ⟨claim1_ai_fill_length.2.2.1 ["a", "b"] 3 (by decide),
    claim1_ai_fill_length.2.2.2.2.1 ["x", "y", "z"] ["a", "b", ""] (by decide)⟩

/-- C9: statuses are total on decode: `Status::from_str` inverts
`Status::as_str` on the four encodings, the `list_sessions` row mapper
sends every unrecognized stored string to Planned instead of failing, and
every decoded session's status is one of the four defined values. -/
theorem claim9_status_total :
    (∀ st : Status, Status.fromStr st.asStr = some st)
    ∧ (∀ row : SessionRow,
        (decodeSessionRow row).status = (Status.fromStr row.status).getD .planned)
    ∧ (∀ row : SessionRow, Status.fromStr row.status = none →
        (decodeSessionRow row).status = .planned)
    ∧ (∀ (db : Db) (pid : Int), ∀ sess ∈ db.listSessions pid, sess.status ∈ Status.all) := by
  refine ⟨?_, ?_, ?_, ?_⟩
  · intro st; cases st <;> rfl
  · intro row; rfl
  · intro row h
    simp [decodeSessionRow, h]
  · intro db pid sess _
    cases sess.status <;> simp [Status.all]

/-- C9 witness: a concrete row with an unrecognized stored status decodes
to Planned. -/
theorem claim9_witness : (decodeSessionRow bogusRow).status = .planned :=
  claim9_status_total.2.2.1 bogusRow (by decide)

/-- C10: with zero custom fields, Enter in the AI sub-mode with a non-empty
prompt is a complete no-op: `run_ai_fill` returns before creating a channel
or spawning a worker, so no flag, buffer, error, channel, or mode state
changes. -/
theorem claim10_no_fields_noop (s : Sys) (hf : s.app.fields = [])
    (hp : ¬ s.app.aiInput.isEmpty) :
    runAiFill s = s ∧ handleAiEditKey s keyEnter = s := by
  have hrun : runAiFill s = s := by
    unfold runAiFill
    simp [hf]
  refine ⟨hrun, ?_⟩
  simp [handleAiEditKey, keyEnter, hp, hrun]

/-- C10 witness: the no-op evaluated on a concrete no-field controller. -/
theorem claim10_witness : runAiFill noFieldsSys = noFieldsSys
    ∧ handleAiEditKey noFieldsSys keyEnter = noFieldsSys :=
  claim10_no_fields_noop noFieldsSys (by decide) (by decide)

/-- C2 (amended): while `ai_running` is true, dispatching any key event
(channel polling aside) leaves the application state unchanged except for
the status message, which `handle_events` clears on every keypress before
the `ai_running` gate is consulted; no other field of App changes and no
action is returned. -/
theorem claim2_ai_gate (s : Sys) (k : KeyEvent) (h : s.app.aiRunning = true) :
    dispatchKey s k = ({ s with app := { s.app with statusMessage := none } }, .none) := by
  simp [dispatchKey, h]

/-- C2 witness: the gate evaluated on a concrete running-worker state. -/
theorem claim2_witness :
    dispatchKey gateSys keyJ =
      ({ gateSys with app := { gateSys.app with statusMessage := none } }, .none) :=
  claim2_ai_gate gateSys keyJ (by decide)

/-- C2 counterexample to the claim as stated: with a worker in flight and a
status message on screen, dispatching a key event does mutate the App state
(the status message is cleared), so not every field is left unchanged. -/
theorem claim2_counterexample :
    gateSys.app.aiRunning = true
    ∧ (dispatchKey gateSys keyJ).1 ≠ gateSys := by
  decide

/-- C5: whenever `check_ai_result` receives a worker result, either outcome
clears `ai_running`, switches the edit sub-mode back to Manual, resets the
edit cursor to row 0, clears the prompt buffer, and uninstalls the channel;
on success the field-edit buffers are overwritten positionally (the length
never changes and entries beyond the received values are kept) and any
prior error is cleared; on failure the error string is stored and the
buffers are untouched. -/
theorem claim5_check_ai_result (s : Sys) (r : AiResult)
    (h : s.app.aiResultRx = some (some r)) :
    (checkAiResult s).app.aiRunning = false
    ∧ (checkAiResult s).app.editMode = .manual
    ∧ (checkAiResult s).app.editRow = 0
    ∧ (checkAiResult s).app.aiInput = ""
    ∧ (checkAiResult s).app.aiResultRx = none
    ∧ (∀ values, r = .ok values →
        (checkAiResult s).app.editFieldValues.length = s.app.editFieldValues.length
        ∧ (∀ i, i < s.app.editFieldValues.length →
            (checkAiResult s).app.editFieldValues[i]? =
              if i < values.length then values[i]? else s.app.editFieldValues[i]?)
        ∧ (checkAiResult s).app.aiError = none)
    ∧ (∀ e, r = .err e →
        (checkAiResult s).app.aiError = some e
        ∧ (checkAiResult s).app.editFieldValues = s.app.editFieldValues) := by
  cases r with
  | ok values =>
      refine ⟨?_, ?_, ?_, ?_, ?_, ?_, ?_⟩ <;>
        simp [checkAiResult, h, App.loadCurrentEditRow, overwriteVals_length]
      intro i hi
      exact overwriteVals_getElem _ _ i hi
  | err e =>
      refine ⟨?_, ?_, ?_, ?_, ?_, ?_, ?_⟩ <;>
        simp [checkAiResult, h, App.loadCurrentEditRow]

/-- C5 witness: the channel merge evaluated on a concrete pending result. -/
theorem claim5_witness :
    (checkAiResult rxSys).app.aiRunning = false
    ∧ (checkAiResult rxSys).app.editMode = .manual
    ∧ (checkAiResult rxSys).app.editRow = 0
    ∧ (checkAiResult rxSys).app.aiInput = "" :=
  let h := claim5_check_ai_result rxSys (.ok ["v1", "v2"]) (by decide)
  ⟨h.1, h.2.1, h.2.2.1, h.2.2.2.1⟩

/-- C6 (amended): in ConfirmDelete(Session) mode, the y key (or Y) kills
the associated live terminal session (its name is no longer live
afterwards), deletes the Session record from the store, refreshes, and
returns to Normal; n, N, or Esc cancels, returning to Normal with the
store unchanged; every other key is ignored, leaving the state (and the
ConfirmDelete mode) as it was. -/
theorem claim6_confirm_delete (s : Sys) (sessionId : Int)
    (hdel : s.app.deletingSessionId = some sessionId)
    (hnd : (s.app.sessions.map (fun x => x.id)).Nodup) :
    ((handleConfirmDeleteKey s keyY).app.inputMode = .normal
      ∧ (handleConfirmDeleteKey s keyY).app.deletingSessionId = none
      ∧ (∀ row ∈ (handleConfirmDeleteKey s keyY).app.db.sessions, ¬ row.id = sessionId)
      ∧ (∀ x ∈ s.app.sessions, x.id = sessionId →
          ∀ n, x.tmuxWindow = some n → n ∉ (handleConfirmDeleteKey s keyY).world.live))
    ∧ (∀ k : KeyEvent, (k.code = .char 'n' ∨ k.code = .char 'N' ∨ k.code = .esc) →
        handleConfirmDeleteKey s k =
          { s with app := { s.app with inputMode := .normal, deletingSessionId := none } })
    ∧ (∀ k : KeyEvent,
        k.code ≠ .char 'y' → k.code ≠ .char 'Y' → k.code ≠ .char 'n'
          → k.code ≠ .char 'N' → k.code ≠ .esc →
        handleConfirmDeleteKey s k = s) := by
  refine ⟨⟨?_, ?_, ?_, ?_⟩, ?_, ?_⟩
  · simp [handleConfirmDeleteKey, keyY]
  · simp [handleConfirmDeleteKey, keyY]
  · -- every session row with the deleted id is gone from the store
    intro row hrow
    have hdb : (handleConfirmDeleteKey s keyY).app.db =
        (Sys.refreshSessions
          { s with
              world :=
                match (s.app.sessions.find? (fun (x : Session) => x.id == sessionId)).bind
                    (fun (x : Session) => x.tmuxWindow) with
                | some tmuxName => (s.world.killSession tmuxName).1
                | none => s.world
              app := { s.app with db := s.app.db.deleteSession sessionId } }).app.db := by
      simp [handleConfirmDeleteKey, keyY, hdel, clampRow_db]
    rw [hdb] at hrow
    revert row hrow
    simp only [Sys.refreshSessions, Sys.refreshTmuxSessions]
    refine foldl_preserve _
      (fun (db : Db) => ∀ row ∈ db.sessions, ¬ row.id = sessionId) ?_ _ _ ?_
    · intro db sess hP
      cases hw : sess.tmuxWindow with
      | none => simpa [hw] using hP
      | some n =>
          simp only [hw]
          split
          · exact hP
          · exact clearTmux_preserves_id db sess.id (fun i => ¬ i = sessionId) hP
    · intro row hrow
      simp only [Db.deleteSession, List.mem_filter] at hrow
      simpa using hrow.2
  · -- the associated live terminal session is killed
    intro x hx hid n hwin
    have hfind : s.app.sessions.find? (fun (y : Session) => y.id == sessionId) = some x := by
      have h2 := find_eq_of_nodup_key (fun (y : Session) => y.id) s.app.sessions x hnd hx
      simpa [hid] using h2
    have hworld : (handleConfirmDeleteKey s keyY).world = (s.world.killSession n).1 := by
      simp [handleConfirmDeleteKey, keyY, hdel, hfind, hwin, Sys.refreshSessions,
        Sys.refreshTmuxSessions]
    rw [hworld]
    unfold World.killSession
    split
    · simp
    · rename_i hnc
      intro hmem
      exact hnc (by simpa using hmem)
  · -- n / N / Esc cancel with the store unchanged
    intro k hk
    rcases k with ⟨kc, kct, ksh⟩
    rcases hk with h | h | h <;> simp only at h <;> subst h <;> rfl
  · -- every other key is ignored
    intro k h1 h2 h3 h4 h5
    rcases k with ⟨kc, kct, ksh⟩
    simp only at h1 h2 h3 h4 h5
    cases kc
    all_goals try rfl
    case mk.esc => exact absurd rfl h5
    case mk.char c => simp only [handleConfirmDeleteKey]

/-- C6 witness: the confirmed delete evaluated on a concrete state with a
live bound terminal session. -/
theorem claim6_witness :
    (handleConfirmDeleteKey delSys keyY).app.inputMode = .normal
    ∧ (handleConfirmDeleteKey delSys keyY).app.deletingSessionId = none
    ∧ (∀ row ∈ (handleConfirmDeleteKey delSys keyY).app.db.sessions, ¬ row.id = 1) :=
  let h := claim6_confirm_delete delSys 1 (by decide) (by decide)
  ⟨h.1.1, h.1.2.1, h.1.2.2.1⟩

/-- C6 counterexample to the claim as stated: in ConfirmDelete mode the z
key is not any of the handled keys and is simply ignored, so it does not
cancel and return to Normal. -/
theorem claim6_counterexample :
    delSys.app.inputMode = .confirmDelete
    ∧ delSys.app.deletingSessionId = some 1
    ∧ (handleConfirmDeleteKey delSys keyZ).app.inputMode ≠ .normal := by
  decide

/-- C4 (amended): after any sequence of create/rename/delete operations,
`refresh_sessions` leaves the in-memory session list equal to the store's
current contents for the active project, provided every tmux handle stored
for the project is live (a condition the three operations preserve).
Without that proviso the stale-handle cleanup inside the refresh clears
`tmux_window` in the store after the in-memory list was read, and the two
diverge until the next refresh. -/
theorem claim4_refresh_converges (s : Sys) (ops : List SessionOp)
    (h : noStaleHandles s.app.db s.app.project.id s.world) :
    noStaleHandles (s.app.db.applySessionOps s.app.project.id ops) s.app.project.id s.world
    ∧ (Sys.refreshSessions
        { s with app := { s.app with
            db := s.app.db.applySessionOps s.app.project.id ops } }).app.sessions
      = (Sys.refreshSessions
          { s with app := { s.app with
              db := s.app.db.applySessionOps s.app.project.id ops } }).app.db.listSessions
          s.app.project.id := by
  have hpres : ∀ (db : Db) (op : SessionOp),
      noStaleHandles db s.app.project.id s.world →
      noStaleHandles (db.applySessionOp s.app.project.id op) s.app.project.id s.world := by
    intro db op hdb
    cases op with
    | create name =>
        intro row hrow hpid
        simp only [Db.applySessionOp, Db.createSession, List.mem_append] at hrow
        rcases hrow with hl | hr
        · exact hdb row hl hpid
        · have : row.tmuxWindow = none := by
            simp only [List.mem_singleton] at hr
            subst hr
            rfl
          simp [this]
    | rename sid name =>
        intro row hrow hpid
        simp only [Db.applySessionOp, Db.updateSessionName, List.mem_map] at hrow
        rcases hrow with ⟨row2, hmem, hrow2⟩
        have hproj : row.projectId = row2.projectId := by
          rw [← hrow2]
          split <;> rfl
        have hwin : row.tmuxWindow = row2.tmuxWindow := by
          rw [← hrow2]
          split <;> rfl
        rw [hwin]
        exact hdb row2 hmem (by rw [← hproj]; exact hpid)
    | delete sid =>
        intro row hrow hpid
        simp only [Db.applySessionOp, Db.deleteSession, List.mem_filter] at hrow
        exact hdb row hrow.1 hpid
  have h2 : noStaleHandles (s.app.db.applySessionOps s.app.project.id ops)
      s.app.project.id s.world := by
    unfold Db.applySessionOps
    exact foldl_preserve _ (fun db => noStaleHandles db s.app.project.id s.world)
      (fun db op hdb => hpres db op hdb) ops s.app.db h
  refine ⟨h2, ?_⟩
  have hcond : ∀ sess ∈ (s.app.db.applySessionOps s.app.project.id ops).listSessions
        s.app.project.id, ∀ n, sess.tmuxWindow = some n →
      s.world.listWorkbenchSessions.contains n = true := by
    intro sess hs n hn
    rcases mem_listSessions.mp hs with ⟨row, hmem, hpid, hdec⟩
    have hwin : row.tmuxWindow = some n := by
      have : (decodeSessionRow row).tmuxWindow = row.tmuxWindow := rfl
      rw [← hdec] at hn
      rw [this] at hn
      exact hn
    have := h2 row hmem hpid
    simpa [hwin] using this
  exact refreshSessions_converges
    { s with app := { s.app with db := s.app.db.applySessionOps s.app.project.id ops } }
    hcond

/-- C4 witness: a create operation on a store whose single tmux handle is
live converges after refresh. -/
theorem claim4_witness :
    (Sys.refreshSessions
        { cleanSys with app := { cleanSys.app with
            db := cleanSys.app.db.applySessionOps cleanSys.app.project.id
              [SessionOp.create "next"] } }).app.sessions
      = (Sys.refreshSessions
          { cleanSys with app := { cleanSys.app with
              db := cleanSys.app.db.applySessionOps cleanSys.app.project.id
                [SessionOp.create "next"] } }).app.db.listSessions
          cleanSys.app.project.id :=
  (claim4_refresh_converges cleanSys [SessionOp.create "next"] (by decide)).2

/-- C4 counterexample to the claim as stated: with a stored tmux handle
that is no longer live, `refresh_sessions` (after the empty operation
sequence) clears the handle in the store but not in the freshly loaded
in-memory list, so the two differ immediately after the refresh returns. -/
theorem claim4_counterexample :
    (Sys.refreshSessions driftSys).app.sessions ≠
      (Sys.refreshSessions driftSys).app.db.listSessions driftSys.app.project.id := by
  decide

set_option maxHeartbeats 1000000 in
/-- C3 (amended): `clamp_row` always establishes that the selected row is
within [0, count) for the active column, or 0 when that column is empty;
column switches and up/down navigation preserve this bound, as does a
confirmed (or cancelled) delete, and — when the in-memory list matches the
store — a session create and the `r` refresh (which reloads the same
per-status counts).  A status move refreshes without re-clamping, so after
it the selected row can be outside [0, count) until the next clamping
action. -/
theorem claim3_row_clamped :
    (∀ a : App, a.clampRow.rowInRange)
    ∧ (∀ (s : Sys) (k : KeyEvent), s.app.rowInRange →
        (k.code = .char 'h' ∨ k.code = .left ∨ k.code = .char 'l' ∨ k.code = .right
          ∨ k.code = .char 'j' ∨ k.code = .down ∨ k.code = .char 'k' ∨ k.code = .up) →
        (handleNormalKey s k).1.app.rowInRange)
    ∧ (∀ (s : Sys) (k : KeyEvent), s.app.rowInRange →
        (handleConfirmDeleteKey s k).app.rowInRange)
    ∧ (∀ (s : Sys) (k : KeyEvent), s.app.rowInRange →
        s.app.sessions = s.app.db.listSessions s.app.project.id →
        (handleInputKey s k).app.rowInRange)
    ∧ (∀ (s : Sys) (k : KeyEvent), s.app.rowInRange →
        s.app.sessions = s.app.db.listSessions s.app.project.id →
        k.code = .char 'r' →
        (handleNormalKey s k).1.app.rowInRange) := by
  refine ⟨clampRow_rowInRange, ?_, ?_, ?_, ?_⟩
  · intro s k hrow hk
    rcases k with ⟨kc, kct, ksh⟩
    simp only at hk
    rcases hk with h | h | h | h | h | h | h | h <;> subst h
    · rw [show handleNormalKey s ⟨KeyCode.char 'h', kct, ksh⟩
          = (if 0 < s.app.selectedColumn then
              ({ s with app := App.clampRow { s.app with
                  selectedColumn := s.app.selectedColumn - 1 } }, AppAction.none)
            else (s, AppAction.none)) from rfl]
      split
      · exact clampRow_rowInRange _
      · exact hrow
    · rw [show handleNormalKey s ⟨KeyCode.left, kct, ksh⟩
          = (if 0 < s.app.selectedColumn then
              ({ s with app := App.clampRow { s.app with
                  selectedColumn := s.app.selectedColumn - 1 } }, AppAction.none)
            else (s, AppAction.none)) from rfl]
      split
      · exact clampRow_rowInRange _
      · exact hrow
    · rw [show handleNormalKey s ⟨KeyCode.char 'l', kct, ksh⟩
          = (if s.app.selectedColumn < Status.all.length - 1 then
              ({ s with app := App.clampRow { s.app with
                  selectedColumn := s.app.selectedColumn + 1 } }, AppAction.none)
            else (s, AppAction.none)) from rfl]
      split
      · exact clampRow_rowInRange _
      · exact hrow
    · rw [show handleNormalKey s ⟨KeyCode.right, kct, ksh⟩
          = (if s.app.selectedColumn < Status.all.length - 1 then
              ({ s with app := App.clampRow { s.app with
                  selectedColumn := s.app.selectedColumn + 1 } }, AppAction.none)
            else (s, AppAction.none)) from rfl]
      split
      · exact clampRow_rowInRange _
      · exact hrow
    · rw [show handleNormalKey s ⟨KeyCode.char 'j', kct, ksh⟩
          = (if s.app.selectedRow <
                (s.app.sessionsByStatus
                  (Status.all.getD s.app.selectedColumn .planned)).length - 1 then
              ({ s with app := { s.app with
                  selectedRow := s.app.selectedRow + 1 } }, AppAction.none)
            else (s, AppAction.none)) from rfl]
      split
      · rename_i hc
        unfold App.rowInRange App.sessionsByStatus at hrow ⊢
        unfold App.sessionsByStatus at hc
        dsimp only at *
        omega
      · exact hrow
    · rw [show handleNormalKey s ⟨KeyCode.down, kct, ksh⟩
          = (if s.app.selectedRow <
                (s.app.sessionsByStatus
                  (Status.all.getD s.app.selectedColumn .planned)).length - 1 then
              ({ s with app := { s.app with
                  selectedRow := s.app.selectedRow + 1 } }, AppAction.none)
            else (s, AppAction.none)) from rfl]
      split
      · rename_i hc
        unfold App.rowInRange App.sessionsByStatus at hrow ⊢
        unfold App.sessionsByStatus at hc
        dsimp only at *
        omega
      · exact hrow
    · rw [show handleNormalKey s ⟨KeyCode.char 'k', kct, ksh⟩
          = (if 0 < s.app.selectedRow then
              ({ s with app := { s.app with
                  selectedRow := s.app.selectedRow - 1 } }, AppAction.none)
            else (s, AppAction.none)) from rfl]
      split
      · rename_i hc
        unfold App.rowInRange App.sessionsByStatus at hrow ⊢
        dsimp only at *
        omega
      · exact hrow
    · rw [show handleNormalKey s ⟨KeyCode.up, kct, ksh⟩
          = (if 0 < s.app.selectedRow then
              ({ s with app := { s.app with
                  selectedRow := s.app.selectedRow - 1 } }, AppAction.none)
            else (s, AppAction.none)) from rfl]
      split
      · rename_i hc
        unfold App.rowInRange App.sessionsByStatus at hrow ⊢
        dsimp only at *
        omega
      · exact hrow
  · intro s k hrow
    simp only [handleConfirmDeleteKey]
    split
    all_goals try split
    all_goals
      first
        | exact hrow
        | exact (rowInRange_congr _ _ rfl rfl rfl).mpr (clampRow_rowInRange _)
        | exact (rowInRange_congr _ _ rfl rfl rfl).mpr hrow
  · intro s k hrow hsync
    simp only [handleInputKey]
    split
    · exact (rowInRange_congr _ _ rfl rfl rfl).mpr hrow
    · split
      · refine (rowInRange_congr _ _ rfl rfl rfl).mpr ?_
        show App.rowInRange
          { (Sys.refreshSessions
              { s with app := { s.app with
                  db := s.app.db.createSession s.app.project.id s.app.inputBuffer } }).app with
            inputMode := InputMode.normal, inputBuffer := "" }
        refine (rowInRange_congr _ _ rfl rfl rfl).mpr ?_
        have hle := count_listSessions_create s.app.db s.app.project.id s.app.inputBuffer
          (fun x => x.status == Status.all.getD s.app.selectedColumn Status.planned)
        unfold App.rowInRange App.sessionsByStatus at hrow ⊢
        rw [hsync] at hrow
        show s.app.selectedRow <
            (((s.app.db.createSession s.app.project.id
                s.app.inputBuffer).listSessions s.app.project.id).filter
              (fun x => x.status == Status.all.getD s.app.selectedColumn Status.planned)).length
          ∨ ((((s.app.db.createSession s.app.project.id
                s.app.inputBuffer).listSessions s.app.project.id).filter
              (fun x => x.status == Status.all.getD s.app.selectedColumn Status.planned)).length = 0
            ∧ s.app.selectedRow = 0)
        omega
      · exact (rowInRange_congr _ _ rfl rfl rfl).mpr hrow
    · exact (rowInRange_congr _ _ rfl rfl rfl).mpr hrow
    · exact (rowInRange_congr _ _ rfl rfl rfl).mpr hrow
    · exact hrow
  · intro s k hrow hsync hk
    rcases k with ⟨kc, kct, ksh⟩
    simp only at hk
    subst hk
    rw [show handleNormalKey s ⟨KeyCode.char 'r', kct, ksh⟩
        = (s.refreshSessions, AppAction.none) from rfl]
    exact (rowInRange_congr _ _
      ((refreshSessions_sessions_eq s).trans hsync.symm) rfl rfl).mpr hrow

theorem sub_of_pre {α : Type} {p l : List α} (h : p <+: l) : p <:+: l := by
  rcases h with ⟨t, rfl⟩
  exact ⟨[], t, rfl⟩

theorem sub_append_left {α : Type} (x : List α) {p y : List α} (h : p <:+: y) :
    p <:+: x ++ y := by
  rcases h with ⟨u, v, rfl⟩
  exact ⟨x ++ u, v, by simp⟩

theorem mem_sub_joinLines {l : List Char} {ls : List (List Char)} (h : l ∈ ls) :
    l <:+: joinLines ls := by
  induction ls with
  | nil => simp at h
  | cons a t ih =>
      rcases List.mem_cons.mp h with rfl | ht
      · cases t with
        | nil => exact List.infix_refl _
        | cons b u => exact sub_of_pre (List.prefix_append _ _)
      · cases t with
        | nil => simp at ht
        | cons b u => exact sub_append_left a ( List.infix_cons (ih ht))

theorem pre_of_pre_append_cons {α : Type} {c : α} :
    ∀ {p a : List α} (b : List α), c ∉ p → p <+: a ++ c :: b → p <+: a := by
  intro p a
  induction a generalizing p with
  | nil =>
      intro b hc h
      cases p with
      | nil => exact List.nil_prefix
      | cons q p2 =>
          rcases List.cons_prefix_cons.mp h with ⟨rfl, _⟩
          exact absurd (List.mem_cons_self _ _) hc
  | cons x a2 ih =>
      intro b hc h
      cases p with
      | nil => exact List.nil_prefix
      | cons q p2 =>
          rcases List.cons_prefix_cons.mp h with ⟨rfl, h2⟩
          have hc2 : c ∉ p2 := fun hm => hc (List.mem_cons_of_mem _ hm)
          exact List.cons_prefix_cons.mpr ⟨rfl, ih b hc2 h2⟩

theorem sub_split {α : Type} {c : α} :
    ∀ {p : List α} (a b : List α), c ∉ p → p <:+: a ++ c :: b → p <:+: a ∨ p <:+: b := by
  intro p a
  induction a generalizing p with
  | nil =>
      intro b hc h
      rcases List.infix_cons_iff.mp h with hpre | hsuf
      · cases p with
        | nil => exact Or.inl ( List.nil_infix)
        | cons q p2 =>
            rcases List.cons_prefix_cons.mp hpre with ⟨rfl, _⟩
            exact absurd (List.mem_cons_self _ _) hc
      · exact Or.inr hsuf
  | cons x a2 ih =>
      intro b hc h
      rcases List.infix_cons_iff.mp h with hpre | htail
      · exact Or.inl (sub_of_pre (pre_of_pre_append_cons b hc hpre))
      · rcases ih b hc htail with h1 | h2
        · exact Or.inl ( List.infix_cons h1)
        · exact Or.inr h2

theorem sub_joinLines_iff {p : List Char} (hc : '\n' ∉ p) (hp : p ≠ []) :
    ∀ ls : List (List Char), p <:+: joinLines ls ↔ ∃ l ∈ ls, p <:+: l := by
  intro ls
  induction ls with
  | nil =>
      simp only [joinLines]
      constructor
      · intro h
        rcases h with ⟨s, t, he⟩
        simp only [List.append_eq_nil] at he
        exact absurd he.1.2 hp
      · rintro ⟨l, hl, _⟩
        simp at hl
  | cons a t ih =>
      cases t with
      | nil =>
          simp only [joinLines]
          constructor
          · intro h
            exact ⟨a, List.mem_singleton.mpr rfl, h⟩
          · rintro ⟨l, hl, hli⟩
            rcases List.mem_singleton.mp hl with rfl
            exact hli
      | cons b u =>
          constructor
          · intro h
            rcases sub_split a (joinLines (b :: u)) hc h with h1 | h2
            · exact ⟨a, List.mem_cons_self _ _, h1⟩
            · rcases ih.mp h2 with ⟨l, hl, hli⟩
              exact ⟨l, List.mem_cons_of_mem _ hl, hli⟩
          · rintro ⟨l, hl, hli⟩
            exact hli.trans (mem_sub_joinLines hl)

/-- C7: `is_waiting_for_input` returns true exactly when one of the fixed
prompt substrings occurs within one of the last 5 lines of the captured
pane text, and false on capture failure; in particular it is true when
"(y/n)" appears in the last 5 lines and false when that substring appears
only in line 6 from the end. -/
theorem claim7_waiting_heuristic :
    (∀ content : String,
        isWaitingForInput (some content) = true ↔
          ∃ p ∈ promptPatterns,
            ∃ line ∈ (rustLines content.data).reverse.take 5, p <:+: line)
    ∧ isWaitingForInput none = false
    ∧ isWaitingForInput (some "one\ntwo\nthree\nfour\nfive\nok? (y/n)") = true
    ∧ isWaitingForInput (some "ok? (y/n)\ntwo\nthree\nfour\nfive\nsix") = false := by
  refine ⟨?_, rfl, by decide, by decide⟩
  intro content
  unfold isWaitingForInput
  simp only [strContainsChars, Bool.or_eq_true, decide_eq_true_eq]
  constructor
  · rintro (((((((h | h) | h) | h) | h) | h) | h) | h) <;>
      · rcases (sub_joinLines_iff (by decide) (by decide) _).mp h with ⟨l, hl, hli⟩
        exact ⟨_, by simp [promptPatterns], l, hl, hli⟩
  · rintro ⟨p, hp, l, hl, hli⟩
    have hjoin := hli.trans (mem_sub_joinLines hl)
    simp only [promptPatterns, List.mem_cons, List.not_mem_nil, or_false] at hp
    rcases hp with rfl | rfl | rfl | rfl | rfl | rfl | rfl | rfl <;> tauto

theorem pairwise_lt_of_chain_lt {α : Type} (key : α → Int) :
    ∀ l : List α, l.Chain' (fun a b => key a < key b) →
      l.Pairwise (fun a b => key a < key b) := by
  intro l
  induction l with
  | nil => intro _; exact List.Pairwise.nil
  | cons a t ih =>
      intro h
      cases t with
      | nil => exact List.pairwise_singleton _ _
      | cons b u =>
          rcases List.chain'_cons.mp h with ⟨hab, h2⟩
          have hp := ih h2
          refine List.pairwise_cons.mpr ⟨?_, hp⟩
          intro x hx
          rcases List.mem_cons.mp hx with rfl | hxu
          · exact hab
          · exact lt_trans hab ((List.pairwise_cons.mp hp).1 x hxu)

theorem chain'_and_of {α : Type} {R S : α → α → Prop} :
    ∀ {l : List α}, l.Chain' R → l.Chain' S →
      l.Chain' (fun a b => R a b ∧ S a b) := by
  intro l
  induction l with
  | nil => intro _ _; exact List.chain'_nil
  | cons a t ih =>
      intro hR hS
      cases t with
      | nil => exact List.chain'_singleton _
      | cons b u =>
          rcases List.chain'_cons.mp hR with ⟨r1, r2⟩
          rcases List.chain'_cons.mp hS with ⟨s1, s2⟩
          exact List.chain'_cons.mpr ⟨⟨r1, s1⟩, ih r2 s2⟩

theorem sorted_key_unique {α : Type} (key : α → Int) :
    ∀ {l1 l2 : List α}, l1.Perm l2 →
      l1.Pairwise (fun a b => key a < key b) →
      l2.Pairwise (fun a b => key a < key b) → l1 = l2 := by
  intro l1
  induction l1 with
  | nil =>
      intro l2 h _ _
      rw [(h.symm.eq_nil)]
  | cons a t ih =>
      intro l2 hperm hp1 hp2
      cases l2 with
      | nil =>
          have := hperm.eq_nil
          simp at this
      | cons b t2 =>
          have hab : a = b := by
            by_contra hne
            have ha2 : a ∈ b :: t2 := hperm.mem_iff.mp (List.mem_cons_self _ _)
            have hb1 : b ∈ a :: t := hperm.mem_iff.mpr (List.mem_cons_self _ _)
            rcases List.mem_cons.mp ha2 with h0 | ha3
            · exact hne h0
            rcases List.mem_cons.mp hb1 with h0 | hb3
            · exact hne h0.symm
            have hk1 : key a < key b := (List.pairwise_cons.mp hp1).1 b hb3
            have hk2 : key b < key a := (List.pairwise_cons.mp hp2).1 a ha3
            omega
          subst hab
          rw [ih hperm.cons_inv (List.pairwise_cons.mp hp1).2
            (List.pairwise_cons.mp hp2).2]

theorem findIdx_acc_of_nodup_key {α : Type} (key : α → Int) :
    ∀ (l : List α) (i : Nat) (f : α), (l.map key).Nodup → l[i]? = some f →
      ∀ n : Nat, List.findIdx? (fun x => key x == key f) l n = some (n + i) := by
  intro l
  induction l with
  | nil => intro i f _ hf n; simp at hf
  | cons x xs ih =>
      intro i f hnd hf n
      cases i with
      | zero =>
          have hx : x = f := by simpa using hf
          subst hx
          rw [List.findIdx?_cons]
          simp
      | succ j =>
          have hf2 : xs[j]? = some f := by simpa using hf
          have hkey : (key x == key f) = false := by
            have h1 : key x ∉ xs.map key := (List.nodup_cons.mp (by simpa using hnd)).1
            have hmem : f ∈ xs := by
              rcases List.getElem?_eq_some.mp hf2 with ⟨hj, he⟩
              exact he ▸ List.getElem_mem hj
            have h2 : key f ∈ xs.map key := List.mem_map_of_mem key hmem
            simp only [beq_eq_false_iff_ne, ne_eq]
            intro he
            exact h1 (he ▸ h2)
          rw [List.findIdx?_cons, hkey]
          simp only [Bool.false_eq_true, if_false]
          rw [ih j f ((List.nodup_cons.mp (by simpa using hnd)).2) hf2 (n + 1)]
          congr 1
          omega

theorem findIdx_field_id (l : List Field) (i : Nat) (f : Field)
    (hnd : (l.map (fun x => x.id)).Nodup) (hf : l[i]? = some f) :
    l.findIdx? (fun x => x.id == f.id) = some i := by
  have := findIdx_acc_of_nodup_key (fun x => x.id) l i f hnd hf 0
  simpa using this

theorem filter_pid_map_upd (t : List Field) (pid fid o : Int) :
    (t.map (fun x => if x.id == fid then { x with displayOrder := o } else x)).filter
        (fun x => x.projectId == pid)
      = (t.filter (fun x => x.projectId == pid)).map
          (fun x => if x.id == fid then { x with displayOrder := o } else x) := by
  rw [List.filter_map]
  congr 1
  apply List.filter_congr
  intro x _
  simp only [Function.comp]
  split <;> rfl

theorem db_ext (d d2 : Db) (h1 : d.sessions = d2.sessions) (h2 : d.fields = d2.fields)
    (h3 : d.fieldValues = d2.fieldValues) : d = d2 := by
  cases d
  cases d2
  cases h1
  cases h2
  cases h3
  rfl

theorem upd_keeps_id (fid o : Int) (x : Field) :
    ((if x.id == fid then { x with displayOrder := o } else x) : Field).id = x.id := by
  split <;> rfl

theorem upd_skip (fid o : Int) (x : Field) (h : x.id ≠ fid) :
    ((if x.id == fid then { x with displayOrder := o } else x) : Field) = x := by
  rw [if_neg]
  simp [h]

theorem upd_hit (fid o : Int) (x : Field) (h : x.id = fid) :
    ((if x.id == fid then { x with displayOrder := o } else x) : Field)
      = { x with displayOrder := o } := by
  rw [if_pos]
  simp [h]

set_option maxHeartbeats 4000000 in
/-- C8 (amended): for every field at position i of the project's field list
(ordered by `list_fields`) with i ≥ 1, pairwise-distinct adjacent
display_order values, and primary-key-distinct field ids, applying
`move_field_up` and then `move_field_down` to that field restores the
store — and hence the field list — exactly.  At position 0 the round trip
fails: `move_field_up` is a no-op there while `move_field_down` still
swaps downward. -/
theorem claim8_move_roundtrip (db : Db) (pid : Int) (i : Nat) (f : Field)
    (hnd : (db.fields.map (fun x => x.id)).Nodup)
    (hadj : (db.listFields pid).Chain' (fun a b => a.displayOrder ≠ b.displayOrder))
    (hi : 1 ≤ i) (hf : (db.listFields pid)[i]? = some f) :
    (db.moveFieldUp pid f.id).moveFieldDown pid f.id = db
    ∧ ((db.moveFieldUp pid f.id).moveFieldDown pid f.id).listFields pid
        = db.listFields pid := by
  have hmain : (db.moveFieldUp pid f.id).moveFieldDown pid f.id = db := by
    set l := db.listFields pid with hldef
    rcases List.getElem?_eq_some.mp hf with ⟨hilen, hfi⟩
    have h1len : i - 1 < l.length := by omega
    set A := l.take (i - 1) with hAdef
    set B := l.drop (i + 1) with hBdef
    set P := l[i - 1] with hPdef
    have hsplit : l = A ++ P :: f :: B := by
      conv_lhs => rw [← List.take_append_drop (i - 1) l]
      rw [List.drop_eq_getElem_cons h1len]
      have hii : i - 1 + 1 = i := by omega
      rw [hii, List.drop_eq_getElem_cons hilen, hfi]
    have hAlen : A.length = i - 1 := by
      rw [hAdef, List.length_take]
      exact min_eq_left (by omega)
    have hperm : l.Perm (db.fields.filter (fun x => x.projectId == pid)) :=
      List.perm_insertionSort fieldOrd _
    have hndF : ((db.fields.filter (fun x => x.projectId == pid)).map
        (fun x => x.id)).Nodup :=
      List.Nodup.sublist (List.Sublist.map _ (List.filter_sublist _)) hnd
    have hndl : (l.map (fun x => x.id)).Nodup := ((hperm.map _).symm).nodup hndF
    have hsorted : l.Pairwise fieldOrd := List.sorted_insertionSort fieldOrd _
    have hchain_lt : l.Chain' (fun a b => a.displayOrder < b.displayOrder) := by
      have hco := chain'_and_of (List.Pairwise.chain' hsorted) hadj
      refine List.Chain'.imp ?_ hco
      intro a b hab
      have h1 := hab.1
      unfold fieldOrd at h1
      rcases h1 with h | h
      · exact h
      · exact absurd h.1 hab.2
    have hlt : l.Pairwise (fun a b => a.displayOrder < b.displayOrder) :=
      pairwise_lt_of_chain_lt (fun x => x.displayOrder) l hchain_lt
    have hids : ((A ++ P :: f :: B).map (fun x => x.id)).Nodup := by
      rw [← hsplit]
      exact hndl
    rw [List.map_append, List.map_cons, List.map_cons, List.nodup_append] at hids
    obtain ⟨hAnd, hcons, hdisj⟩ := hids
    rw [List.nodup_cons] at hcons
    obtain ⟨hPnotin, hcons2⟩ := hcons
    rw [List.nodup_cons] at hcons2
    obtain ⟨hfnotin, hBnd⟩ := hcons2
    have hPf : P.id ≠ f.id := fun he => hPnotin (he ▸ List.mem_cons_self _ _)
    have hfP : f.id ≠ P.id := fun he => hPf he.symm
    have hPB : P.id ∉ B.map (fun x => x.id) := fun hm =>
      hPnotin (List.mem_cons_of_mem _ hm)
    have hfB : f.id ∉ B.map (fun x => x.id) := hfnotin
    have hfA : f.id ∉ A.map (fun x => x.id) := fun hm =>
      hdisj hm (List.mem_cons_of_mem _ (List.mem_cons_self _ _))
    have hPA : P.id ∉ A.map (fun x => x.id) := fun hm =>
      hdisj hm (List.mem_cons_self _ _)
    have hfind1 : l.findIdx? (fun x => x.id == f.id) = some i :=
      findIdx_field_id l i f hndl hf
    have hup : db.moveFieldUp pid f.id
        = (db.setFieldOrder f.id P.displayOrder).setFieldOrder P.id f.displayOrder := by
      simp only [Db.moveFieldUp]
      rw [← hldef, hfind1]
      simp only [if_pos (show 0 < i by omega)]
      rw [List.getElem?_eq_getElem h1len, hf]
    set X : Field := { f with displayOrder := P.displayOrder } with hXdef
    set Y : Field := { P with displayOrder := f.displayOrder } with hYdef
    have hup_fields : (db.moveFieldUp pid f.id).fields.filter (fun x => x.projectId == pid)
        = ((db.fields.filter (fun x => x.projectId == pid)).map
            (fun x => if x.id == f.id then { x with displayOrder := P.displayOrder } else x)).map
            (fun x => if x.id == P.id then { x with displayOrder := f.displayOrder } else x) := by
      rw [hup]
      simp only [Db.setFieldOrder]
      rw [filter_pid_map_upd, filter_pid_map_upd]
    have hA1 : A.map (fun x =>
        if x.id == f.id then { x with displayOrder := P.displayOrder } else x) = A := by
      have hcg : ∀ x ∈ A, (if x.id == f.id then { x with displayOrder := P.displayOrder } else x)
          = id x := by
        intro x hx
        exact upd_skip _ _ x (fun he => hfA (he ▸ List.mem_map_of_mem _ hx))
      rw [List.map_congr_left hcg, List.map_id]
    have hA2 : A.map (fun x =>
        if x.id == P.id then { x with displayOrder := f.displayOrder } else x) = A := by
      have hcg : ∀ x ∈ A, (if x.id == P.id then { x with displayOrder := f.displayOrder } else x)
          = id x := by
        intro x hx
        exact upd_skip _ _ x (fun he => hPA (he ▸ List.mem_map_of_mem _ hx))
      rw [List.map_congr_left hcg, List.map_id]
    have hB1 : B.map (fun x =>
        if x.id == f.id then { x with displayOrder := P.displayOrder } else x) = B := by
      have hcg : ∀ x ∈ B, (if x.id == f.id then { x with displayOrder := P.displayOrder } else x)
          = id x := by
        intro x hx
        exact upd_skip _ _ x (fun he => hfB (he ▸ List.mem_map_of_mem _ hx))
      rw [List.map_congr_left hcg, List.map_id]
    have hB2 : B.map (fun x =>
        if x.id == P.id then { x with displayOrder := f.displayOrder } else x) = B := by
      have hcg : ∀ x ∈ B, (if x.id == P.id then { x with displayOrder := f.displayOrder } else x)
          = id x := by
        intro x hx
        exact upd_skip _ _ x (fun he => hPB (he ▸ List.mem_map_of_mem _ hx))
      rw [List.map_congr_left hcg, List.map_id]
    have hgP : (if P.id == f.id then { P with displayOrder := P.displayOrder } else P) = P :=
      upd_skip _ _ P hPf
    have hgP2 : (if P.id == P.id then { P with displayOrder := f.displayOrder } else P) = Y :=
      upd_hit _ _ P rfl
    have hgf : (if f.id == f.id then { f with displayOrder := P.displayOrder } else f) = X :=
      upd_hit _ _ f rfl
    have hgX : (if X.id == P.id then { X with displayOrder := f.displayOrder } else X) = X :=
      upd_skip _ _ X hfP
    have hmapl : ((l.map (fun x =>
          if x.id == f.id then { x with displayOrder := P.displayOrder } else x)).map
          (fun x => if x.id == P.id then { x with displayOrder := f.displayOrder } else x))
        = A ++ Y :: X :: B := by
      rw [hsplit]
      simp only [List.map_append, List.map_cons]
      rw [hA1, hB1]
      simp only [hgP, hgf]
      rw [hA2, hB2]
      simp only [hgP2, hgX]
    have htargetperm : ((db.moveFieldUp pid f.id).listFields pid).Perm (A ++ X :: Y :: B) := by
      have h1 : ((db.moveFieldUp pid f.id).listFields pid).Perm
          ((db.moveFieldUp pid f.id).fields.filter (fun x => x.projectId == pid)) :=
        List.perm_insertionSort fieldOrd _
      rw [hup_fields] at h1
      have h2 : (((db.fields.filter (fun x => x.projectId == pid)).map
            (fun x => if x.id == f.id then { x with displayOrder := P.displayOrder } else x)).map
            (fun x => if x.id == P.id then { x with displayOrder := f.displayOrder } else x)).Perm
          ((l.map (fun x =>
            if x.id == f.id then { x with displayOrder := P.displayOrder } else x)).map
            (fun x => if x.id == P.id then { x with displayOrder := f.displayOrder } else x)) :=
        ((hperm.symm).map _).map _
      rw [hmapl] at h2
      exact h1.trans (h2.trans (List.Perm.append_left A (List.Perm.swap X Y B)))
    have hordmap : (A ++ X :: Y :: B).map (fun x => x.displayOrder)
        = l.map (fun x => x.displayOrder) := by
      rw [hsplit]
      simp only [List.map_append, List.map_cons]
    have htargetlt : (A ++ X :: Y :: B).Pairwise
        (fun a b => a.displayOrder < b.displayOrder) := by
      have h1 : ((A ++ X :: Y :: B).map (fun x => x.displayOrder)).Pairwise (· < ·) := by
        rw [hordmap]
        exact List.pairwise_map.mpr hlt
      exact List.pairwise_map.mp h1
    have hordnodup : ((A ++ X :: Y :: B).map (fun x => x.displayOrder)).Nodup := by
      rw [hordmap]
      exact (List.pairwise_map.mpr hlt).imp (fun h => ne_of_lt h)
    have hl1sorted : ((db.moveFieldUp pid f.id).listFields pid).Pairwise fieldOrd :=
      List.sorted_insertionSort fieldOrd _
    have hl1ordnodup : (((db.moveFieldUp pid f.id).listFields pid).map
        (fun x => x.displayOrder)).Nodup :=
      ((htargetperm.map _).symm).nodup hordnodup
    have hl1lt : ((db.moveFieldUp pid f.id).listFields pid).Pairwise
        (fun a b => a.displayOrder < b.displayOrder) := by
      have hne : ((db.moveFieldUp pid f.id).listFields pid).Pairwise
          (fun a b => a.displayOrder ≠ b.displayOrder) := List.pairwise_map.mp hl1ordnodup
      refine (hl1sorted.and hne).imp ?_
      intro a b hab
      have h1 := hab.1
      unfold fieldOrd at h1
      rcases h1 with h | h
      · exact h
      · exact absurd h.1 hab.2
    have hl1 : (db.moveFieldUp pid f.id).listFields pid = A ++ X :: Y :: B :=
      sorted_key_unique (fun x => x.displayOrder) htargetperm hl1lt htargetlt
    have hXid : X.id = f.id := by rw [hXdef]
    have hYid : Y.id = P.id := by rw [hYdef]
    have hXord : X.displayOrder = P.displayOrder := by rw [hXdef]
    have hYord : Y.displayOrder = f.displayOrder := by rw [hYdef]
    have hlen_eq : (A ++ X :: Y :: B).length = l.length := by
      rw [hsplit]
      simp
    have htargetndid : ((A ++ X :: Y :: B).map (fun x => x.id)).Nodup := by
      rw [List.map_append, List.map_cons, List.map_cons, hXid, hYid, List.nodup_append]
      refine ⟨hAnd, ?_, ?_⟩
      · rw [List.nodup_cons]
        refine ⟨?_, ?_⟩
        · intro hm
          rcases List.mem_cons.mp hm with he | hm2
          · exact hfP he
          · exact hfB hm2
        · rw [List.nodup_cons]
          exact ⟨hPB, hBnd⟩
      · intro a hma hmb
        rcases List.mem_cons.mp hmb with rfl | hmb2
        · exact hfA hma
        rcases List.mem_cons.mp hmb2 with rfl | hmb3
        · exact hPA hma
        · exact hdisj hma (List.mem_cons_of_mem _ (List.mem_cons_of_mem _ hmb3))
    have htargetget1 : (A ++ X :: Y :: B)[i - 1]? = some X := by
      rw [List.getElem?_append_right (by omega : A.length ≤ i - 1), hAlen]
      simp
    have htargetget2 : (A ++ X :: Y :: B)[i]? = some Y := by
      rw [List.getElem?_append_right (by omega : A.length ≤ i), hAlen]
      have hone : i - (i - 1) = 1 := by omega
      rw [hone]
      simp
    have hfind2 : (A ++ X :: Y :: B).findIdx? (fun x => x.id == f.id) = some (i - 1) := by
      have hraw := findIdx_field_id (A ++ X :: Y :: B) (i - 1) X htargetndid htargetget1
      rw [hXid] at hraw
      exact hraw
    have hcond : i < (A ++ X :: Y :: B).length := by omega
    have hdown : (db.moveFieldUp pid f.id).moveFieldDown pid f.id
        = ((db.moveFieldUp pid f.id).setFieldOrder f.id Y.displayOrder).setFieldOrder
            Y.id X.displayOrder := by
      have hi1 : i - 1 + 1 = i := by omega
      simp only [Db.moveFieldDown, hl1, hfind2, hi1, htargetget2, htargetget1]
      rw [if_pos hcond]
    have hfmem : f ∈ db.fields := by
      have h1 : f ∈ l := by
        rw [hsplit]
        exact List.mem_append.mpr (Or.inr (List.mem_cons_of_mem _ (List.mem_cons_self _ _)))
      exact List.mem_of_mem_filter (hperm.mem_iff.mp h1)
    have hPmem : P ∈ db.fields := by
      have h1 : P ∈ l := by
        rw [hsplit]
        exact List.mem_append.mpr (Or.inr (List.mem_cons_self _ _))
      exact List.mem_of_mem_filter (hperm.mem_iff.mp h1)
    rw [hdown, hup, hYid, hYord, hXord]
    refine db_ext _ _ rfl ?_ rfl
    simp only [Db.setFieldOrder, List.map_map]
    have hpw : ∀ x ∈ db.fields,
        ((fun x => if x.id == P.id then { x with displayOrder := P.displayOrder } else x) ∘
         (fun x => if x.id == f.id then { x with displayOrder := f.displayOrder } else x) ∘
         (fun x => if x.id == P.id then { x with displayOrder := f.displayOrder } else x) ∘
         (fun x => if x.id == f.id then { x with displayOrder := P.displayOrder } else x)) x
        = id x := by
      intro x hx
      simp only [Function.comp, id]
      by_cases hxf : x.id = f.id
      · rw [List.inj_on_of_nodup_map hnd hx hfmem hxf]
        simp [hfP]
      · by_cases hxP : x.id = P.id
        · rw [List.inj_on_of_nodup_map hnd hx hPmem hxP]
          simp [hPf]
        · simp [hxf, hxP]
    rw [List.map_congr_left hpw, List.map_id]
  exact ⟨hmain, by rw [hmain]⟩

/-- C3 witness: a confirmed delete of the only session of the Planned
column leaves the selection clamped (row 0 on the now-empty column). -/
theorem claim3_witness : (handleConfirmDeleteKey delSys keyY).app.rowInRange :=
  claim3_row_clamped.2.2.1 delSys keyY (by decide)

/-- C3 counterexample to the claim as stated: with two Planned sessions and
row 1 selected, moving the selected session to another column refreshes
without re-clamping, leaving selected_row = 1 against a Planned count of 1,
outside [0, count). -/
theorem claim3_counterexample :
    moveCexSys.app.rowInRange
    ∧ moveCexSys.app.sessions = moveCexSys.app.db.listSessions moveCexSys.app.project.id
    ∧ (handleMoveKey moveCexSys keyTwo).app.inputMode = .normal
    ∧ ¬ (handleMoveKey moveCexSys keyTwo).app.selectedRow <
        ((handleMoveKey moveCexSys keyTwo).app.sessionsByStatus
          (Status.all.getD (handleMoveKey moveCexSys keyTwo).app.selectedColumn
            .planned)).length := by
  refine ⟨by decide, by decide, by decide, by decide⟩

/-- C7 witness: a "(y/n)" prompt on the last captured line is detected. -/
theorem claim7_witness :
    isWaitingForInput (some "one\ntwo\nthree\nfour\nfive\nok? (y/n)") = true :=
  claim7_waiting_heuristic.2.2.1

/-- C8 witness: in a three-field store (display orders 0, 1, 2), moving the
middle field (position i = 1) up and then down restores both the store and
the listed order. -/
theorem claim8_witness :
    ((orderDb.moveFieldUp 1 2).moveFieldDown 1 2).listFields 1
      = orderDb.listFields 1 := by
  have hlist : orderDb.listFields 1 =
      [ { id := 1, projectId := 1, name := "fa", description := "", displayOrder := 0 }
      , { id := 2, projectId := 1, name := "fb", description := "", displayOrder := 1 }
      , { id := 3, projectId := 1, name := "fc", description := "", displayOrder := 2 } ] := by
    decide
  have hadj : (orderDb.listFields 1).Chain' (fun a b => a.displayOrder ≠ b.displayOrder) := by
    rw [hlist]
    exact List.chain'_cons.mpr ⟨by decide,
      List.chain'_cons.mpr ⟨by decide, List.chain'_singleton _⟩⟩
  exact (claim8_move_roundtrip orderDb 1 1
    { id := 2, projectId := 1, name := "fb", description := "", displayOrder := 1 }
    (by decide) hadj (by decide) (by decide)).2

/-- C8 counterexample to the claim as stated at position i = 0: moving the
top field up is a no-op, but moving it down still swaps it with the second
field, so the up-then-down round trip changes the listed order. -/
theorem claim8_counterexample :
    ¬ (((orderDb.moveFieldUp 1 1).moveFieldDown 1 1).listFields 1
        = orderDb.listFields 1) := by
  decide

end Workbench
